import Mathlib

/-!
# DiffConvolutionLayer (apps/diff_conv_layer/diff_conv_layer_generator.cpp)

A shallow embedding of the Halide generator `DiffConvolutionLayer`.

* Buffer elements are `float` in the source; here they are rationals, i.e. the
  arithmetic is the exact arithmetic the float operations approximate.
* Indices are Halide `int32` expressions; here they are integers.
* A `Func` denotes a total function from the pipeline inputs and an index to a
  value.  A reduction update is a left fold over the points of its `RDom`, in
  the order the default loop nest visits them (first axis innermost).
-/

namespace DiffConvLayer

/-! ## Buffers and reduction domains -/

/-- One dimension of a buffer, as read by `dim(i).min()` and `dim(i).extent()`. -/
structure Dim where
  min : Int
  extent : Int
deriving DecidableEq, Repr

/-- A four-dimensional pipeline buffer: `Input<Buffer<float>> b{name, 4}`. -/
structure Buffer4 where
  dim0 : Dim
  dim1 : Dim
  dim2 : Dim
  dim3 : Dim
  data : Int → Int → Int → Int → ℚ

/-- A one-dimensional pipeline buffer: `Input<Buffer<float>> b{name, 1}`. -/
structure Buffer1 where
  dim0 : Dim
  data : Int → ℚ

/-- The four inputs of the generator (source lines 11-14). -/
structure Inputs where
  input : Buffer4
  filter : Buffer4
  bias : Buffer1
  compare : Buffer4

/-- The values `min, min+1, ..., min+extent-1` a loop over one axis visits; an
extent that is not positive gives an empty loop. -/
def axisPoints (d : Dim) : List Int :=
  (List.range d.extent.toNat).map (fun (i : Nat) => d.min + (i : Int))

/-- An index lies in a dimension: `min <= i < min + extent`. -/
def Dim.contains (d : Dim) (i : Int) : Prop :=
  d.min ≤ i ∧ i < d.min + d.extent

instance (d : Dim) (i : Int) : Decidable (d.contains i) :=
  inferInstanceAs (Decidable (_ ∧ _))

/-- A three-axis reduction domain `RDom(min0, extent0, min1, extent1, min2, extent2)`. -/
structure RDom3 where
  x : Dim
  y : Dim
  z : Dim
deriving DecidableEq, Repr

/-- A four-axis reduction domain, as `RDom(buffer)` builds from a 4-d buffer. -/
structure RDom4 where
  x : Dim
  y : Dim
  z : Dim
  w : Dim
deriving DecidableEq, Repr

/-- The points of a three-axis domain in loop order: `x` innermost, `z` outermost. -/
def RDom3.points (d : RDom3) : List (Int × Int × Int) :=
  (axisPoints d.z).flatMap fun rz =>
    (axisPoints d.y).flatMap fun ry =>
      (axisPoints d.x).map fun rx => (rx, ry, rz)

/-- The points of a four-axis domain in loop order: `x` innermost, `w` outermost. -/
def RDom4.points (d : RDom4) : List (Int × Int × Int × Int) :=
  (axisPoints d.w).flatMap fun rw =>
    (axisPoints d.z).flatMap fun rz =>
      (axisPoints d.y).flatMap fun ry =>
        (axisPoints d.x).map fun rx => (rx, ry, rz, rw)

/-! ## The algorithm: forward pass (source lines 23-36) -/

/-- Source lines 26-28: `RDom r(filter.dim(0).min(), filter.dim(0).extent(), ...)`
over the first three dimensions of `filter`. -/
def r (I : Inputs) : RDom3 :=
  { x := I.filter.dim0, y := I.filter.dim1, z := I.filter.dim2 }

/-- Source line 31: `f_filter(x, y, z, n) = filter(x, y, z, n)`. -/
def f_filter (I : Inputs) (x y z n : Int) : ℚ :=
  I.filter.data x y z n

/-- Source line 32: `f_bias(z) = bias(z)`. -/
def f_bias (I : Inputs) (z : Int) : ℚ :=
  I.bias.data z

/-- Source lines 34-35: the pure definition `f_conv(x, y, z, n) = f_bias(z)` followed by
the update `f_conv(x, y, z, n) += f_filter(r.x, r.y, r.z, z) * input(x + r.x, y + r.y, r.z, n)`,
run over the points of `r`. -/
def f_conv (I : Inputs) (x y z n : Int) : ℚ :=
  (r I).points.foldl
    (fun acc p => acc + f_filter I p.1 p.2.1 p.2.2 z * I.input.data (x + p.1) (y + p.2.1) p.2.2 n)
    (f_bias I z)

/-- Source line 36: `f_ReLU(x, y, z, n) = max(0, f_conv(x, y, z, n))`. -/
def f_ReLU (I : Inputs) (x y z n : Int) : ℚ :=
  max 0 (f_conv I x y z n)

/-! ## The loss (source lines 38-41) -/

/-- Source line 38: `RDom r_target(compare)`, one axis per dimension of `compare`. -/
def r_target (I : Inputs) : RDom4 :=
  { x := I.compare.dim0, y := I.compare.dim1, z := I.compare.dim2, w := I.compare.dim3 }

/-- Source lines 39-40: `diff = f_ReLU(r_target.x, r_target.y, r_target.z, r_target.w) -
compare(r_target.x, r_target.y, r_target.z, r_target.w)` at one point of `r_target`. -/
def diff (I : Inputs) (x y z w : Int) : ℚ :=
  f_ReLU I x y z w - I.compare.data x y z w

/-- Source line 41: `loss = diff * diff` at one point of `r_target`. -/
def loss (I : Inputs) (x y z w : Int) : ℚ :=
  diff I x y z w * diff I x y z w

/-- Modelled from the spec: the scalar that `propagate_adjoints(loss)` differentiates is
missing from the sources; the spec calls it the sum-of-squared-error loss against the
reference tensor, i.e. `loss` accumulated over every point of `r_target`. -/
def total_loss (I : Inputs) : ℚ :=
  (r_target I).points.foldl (fun acc p => acc + loss I p.1 p.2.1 p.2.2.1 p.2.2.2) 0

/-! ## The graph `generate()` builds, as syntax -/

/-- Index expressions: what stands in an argument position of a call. -/
inductive IExpr where
  | var (v : String)
  | rvar (dom : String) (axis : Nat)
  | add (a b : IExpr)
deriving DecidableEq, Repr

/-- Value expressions.  `call` is a call to a `Func`, `image` a read of an input buffer,
`adjoint f` a call to the `Func` that `adjoints[f]` holds. -/
inductive Expr where
  | lit (c : Int)
  | call (f : String) (args : List IExpr)
  | image (b : String) (args : List IExpr)
  | adjoint (f : String) (args : List IExpr)
  | add (a b : Expr)
  | sub (a b : Expr)
  | mul (a b : Expr)
  | max (a b : Expr)
deriving DecidableEq, Repr

/-- One definition of a `Func`: `f(lhs) = rhs` for the pure definition, `f(lhs) += rhs`
for an update. -/
structure Definition where
  lhs : List IExpr
  rhs : Expr
deriving DecidableEq, Repr

/-- A `Func`: its name, its pure definition and its `+=` updates in order. -/
structure FuncDef where
  name : String
  init : Definition
  updates : List Definition
deriving DecidableEq, Repr

namespace Vars

/-- Source line 23: `Var x("x")`. -/
def x : IExpr := .var "x"
/-- Source line 23: `Var y("y")`. -/
def y : IExpr := .var "y"
/-- Source line 23: `Var z("z")`. -/
def z : IExpr := .var "z"
/-- Source line 23: `Var n("n")`. -/
def n : IExpr := .var "n"

end Vars

open Vars in
/-- Source line 31. -/
def f_filter_def : FuncDef :=
  { name := "f_filter"
    init := { lhs := [x, y, z, n], rhs := .image "filter" [x, y, z, n] }
    updates := [] }

open Vars in
/-- Source line 32. -/
def f_bias_def : FuncDef :=
  { name := "f_bias"
    init := { lhs := [z], rhs := .image "bias" [z] }
    updates := [] }

open Vars in
/-- Source lines 34-35. -/
def f_conv_def : FuncDef :=
  { name := "conv"
    init := { lhs := [x, y, z, n], rhs := .call "f_bias" [z] }
    updates :=
      [{ lhs := [x, y, z, n]
         rhs := .mul (.call "f_filter" [.rvar "r" 0, .rvar "r" 1, .rvar "r" 2, z])
                     (.image "input" [.add x (.rvar "r" 0), .add y (.rvar "r" 1), .rvar "r" 2, n]) }] }

open Vars in
/-- Source line 36. -/
def f_ReLU_def : FuncDef :=
  { name := "ReLU"
    init := { lhs := [x, y, z, n], rhs := .max (.lit 0) (.call "conv" [x, y, z, n]) }
    updates := [] }

/-- Source lines 39-40. -/
def diff_expr : Expr :=
  .sub (.call "ReLU" [.rvar "r_target" 0, .rvar "r_target" 1, .rvar "r_target" 2, .rvar "r_target" 3])
       (.image "compare" [.rvar "r_target" 0, .rvar "r_target" 1, .rvar "r_target" 2, .rvar "r_target" 3])

/-- Source line 41. -/
def loss_expr : Expr :=
  .mul diff_expr diff_expr

open Vars in
/-- Source line 44: `d_filter(x, y, z, n) = adjoints[f_filter.name()](x, y, z, n)`. -/
def d_filter_def : FuncDef :=
  { name := "d_filter"
    init := { lhs := [x, y, z, n], rhs := .adjoint f_filter_def.name [x, y, z, n] }
    updates := [] }

/-- The `Func`s reachable from the loss, in the order `generate()` defines them. -/
def forward_funcs : List FuncDef :=
  [f_filter_def, f_bias_def, f_conv_def, f_ReLU_def]

/-- Every `Func` that `generate()` defines: the forward `Func`s and the output `d_filter`. -/
def pipeline_funcs : List FuncDef :=
  forward_funcs ++ [d_filter_def]

/-- Source lines 11-14: the declared dimension count of each input buffer. -/
def input_dims : List (String × Nat) :=
  [("input", 4), ("filter", 4), ("bias", 1), ("compare", 4)]

/-- Source lines 16-17: the declared dimension count of each output. -/
def output_dims : List (String × Nat) :=
  [("ReLU", 4), ("d_filter", 4)]

/-- Source lines 26-28 and 38: the reduction domains and their number of axes; `r` is
built from three (min, extent) pairs, `r_target` from the 4-d buffer `compare`. -/
def rdom_axes : List (String × Nat) :=
  [("r", 3), ("r_target", (input_dims.lookup "compare").getD 0)]

/-! ### Structure of expressions -/

/-- The pure variables of an index expression. -/
def IExpr.vars : IExpr → List String
  | .var v => [v]
  | .rvar _ _ => []
  | .add a b => a.vars ++ b.vars

/-- The reduction variables (domain, axis) of an index expression. -/
def IExpr.rvars : IExpr → List (String × Nat)
  | .var _ => []
  | .rvar d a => [(d, a)]
  | .add a b => a.rvars ++ b.rvars

/-- The reduction variables of a value expression. -/
def Expr.rvars : Expr → List (String × Nat)
  | .lit _ => []
  | .call _ args => args.flatMap IExpr.rvars
  | .image _ args => args.flatMap IExpr.rvars
  | .adjoint _ args => args.flatMap IExpr.rvars
  | .add a b => a.rvars ++ b.rvars
  | .sub a b => a.rvars ++ b.rvars
  | .mul a b => a.rvars ++ b.rvars
  | .max a b => a.rvars ++ b.rvars

/-- The names of the `Func`s an expression calls (buffer reads are not calls). -/
def Expr.callees : Expr → List String
  | .lit _ => []
  | .call f _ => [f]
  | .image _ _ => []
  | .adjoint _ _ => []
  | .add a b => a.callees ++ b.callees
  | .sub a b => a.callees ++ b.callees
  | .mul a b => a.callees ++ b.callees
  | .max a b => a.callees ++ b.callees

/-- The `Func`s whose value a `Func` reads: those its pure definition calls, those its
updates call, and itself when it has an update (`f(..) += e` reads `f(..)`). -/
def FuncDef.callees (d : FuncDef) : List String :=
  d.init.rhs.callees ++ d.updates.flatMap (fun u => d.name :: u.rhs.callees)

/-- Every indexing site of an expression: what is indexed and with how many indices. -/
inductive Indexed where
  | func (f : String)
  | buffer (b : String)
  | adjointOf (f : String)
deriving DecidableEq, Repr

/-- The indexing sites of an expression, each with its number of indices. -/
def Expr.sites : Expr → List (Indexed × Nat)
  | .lit _ => []
  | .call f args => [(.func f, args.length)]
  | .image b args => [(.buffer b, args.length)]
  | .adjoint f args => [(.adjointOf f, args.length)]
  | .add a b => a.sites ++ b.sites
  | .sub a b => a.sites ++ b.sites
  | .mul a b => a.sites ++ b.sites
  | .max a b => a.sites ++ b.sites

/-- The indexing sites of a `Func`: the left-hand and right-hand side of each of its
definitions. -/
def FuncDef.sites (d : FuncDef) : List (Indexed × Nat) :=
  (d.init :: d.updates).flatMap fun u => (Indexed.func d.name, u.lhs.length) :: u.rhs.sites

/-- The number of dimensions a `Func` of the graph has: the declared count for an output,
the number of arguments of its pure definition otherwise. -/
def func_dims (g : List FuncDef) (f : String) : Option Nat :=
  match output_dims.lookup f with
  | some k => some k
  | none => (g.find? (fun d => d.name = f)).map (fun d => d.init.lhs.length)

/-- The number of dimensions of what an indexing site indexes.  The adjoint of a
`Func` is a function of the same indices as the `Func`. -/
def dims_of (g : List FuncDef) : Indexed → Option Nat
  | .func f => func_dims g f
  | .buffer b => input_dims.lookup b
  | .adjointOf f => func_dims g f

/-! ### Build-time checks -/

/-- No dimension-count mismatch: every indexing site has as many indices as the
indexed buffer or `Func` has dimensions. -/
def arity_ok (g : List FuncDef) (sites : List (Indexed × Nat)) : Bool :=
  sites.all fun s => dims_of g s.1 == some s.2

/-- The left-hand side of a definition is well formed for a `Func` with pure arguments
`dims`: it names only those variables and no reduction variable. -/
def lhs_ok (dims : List String) (u : Definition) : Bool :=
  u.lhs.all fun a => a.vars.all (fun v => dims.contains v) && a.rvars.isEmpty

/-- No unbound reduction variable: every reduction variable of the expression is an
axis of a declared domain. -/
def rvars_bound (e : Expr) : Bool :=
  e.rvars.all fun rv => match rdom_axes.lookup rv.1 with
    | some k => decide (rv.2 < k)
    | none => false

/-- The reduction domains an expression ranges over. -/
def Expr.domains (e : Expr) : List String :=
  (e.rvars.map Prod.fst).dedup

/-- Every definition of a `Func` is well formed: the pure definition has no reduction
variable; each update has a left-hand side over the declared dims and a right-hand
side whose reduction variables are bound and belong to one domain. -/
def func_ok (d : FuncDef) : Bool :=
  let dims := d.init.lhs.flatMap IExpr.vars
  lhs_ok dims d.init && d.init.rhs.rvars.isEmpty &&
    d.updates.all fun u => lhs_ok dims u && rvars_bound u.rhs && decide (u.rhs.domains.length ≤ 1)

/-- The build-time checks on the whole graph of `generate()`: every `Func` it defines
and the loss expression over `r_target`. -/
def build_ok (g : List FuncDef) (l : Expr) : Bool :=
  g.all func_ok && arity_ok g (g.flatMap FuncDef.sites ++ l.sites) &&
    rvars_bound l && decide (l.domains.length ≤ 1)

/-! ## Adjoint propagation -/

/-- A tensor of four indices. -/
abbrev Tensor4 := Int → Int → Int → Int → ℚ

/-- A tensor of one index. -/
abbrev Tensor1 := Int → ℚ

/-- The accumulating write `t(x, y, z, n) += v`. -/
def accumulate4 (t : Tensor4) (x y z n : Int) (v : ℚ) : Tensor4 :=
  fun x' y' z' n' =>
    if x' = x ∧ y' = y ∧ z' = z ∧ n' = n then t x' y' z' n' + v else t x' y' z' n'

/-- The accumulating write `t(z) += v`. -/
def accumulate1 (t : Tensor1) (z : Int) (v : ℚ) : Tensor1 :=
  fun z' => if z' = z then t z' + v else t z'

/-- The local derivative of `max(0, c)` with respect to `c`: 1 where `c` is positive, 0
where it is negative.  `g0` is the value taken at the kink `c = 0`, which the spec
leaves open. -/
def max0_slope (g0 : ℚ) (c : ℚ) : ℚ :=
  if 0 < c then 1 else if c = 0 then g0 else 0

/-- Modelled from the spec: `propagate_adjoints` is missing from the sources.  Step 2 of
the spec's algorithm seeds the adjoint of the loss's immediate dependency (`ReLU`,
read at the points of `r_target`) with `d(diff²)/d(diff) = 2·diff`: a zero tensor into
which every point of `r_target` accumulates `2 * diff`. -/
def d_ReLU (I : Inputs) : Tensor4 :=
  (r_target I).points.foldl
    (fun t p => accumulate4 t p.1 p.2.1 p.2.2.1 p.2.2.2 (2 * diff I p.1 p.2.1 p.2.2.1 p.2.2.2))
    (fun _ _ _ _ => 0)

/-- Modelled from the spec: `propagate_adjoints` is missing from the sources.  Step 3
(chain rule) at the read `max(0, f_conv(x, y, z, n))` of source line 36: the consumer's
adjoint at the read site times the local derivative of the read expression. -/
def d_conv (g0 : ℚ) (I : Inputs) : Tensor4 :=
  fun x y z n => d_ReLU I x y z n * max0_slope g0 (f_conv I x y z n)

/-- Modelled from the spec: `propagate_adjoints` is missing from the sources.  Steps 3
and 4 at the read `f_filter(r.x, r.y, r.z, z)` of source line 35: for every point
`(x, y, z, n)` of the consumer's iteration domain (the region of `conv` the loss reads,
`r_target`) and every point of the same reduction domain `r`, the contribution
`adjoint(conv)(x, y, z, n) * input(x + r.x, y + r.y, r.z, n)` is accumulated into the
adjoint at the index `(r.x, r.y, r.z, z)` the read used. -/
def d_f_filter (g0 : ℚ) (I : Inputs) : Tensor4 :=
  (r_target I).points.foldl
    (fun t p =>
      (r I).points.foldl
        (fun t q =>
          accumulate4 t q.1 q.2.1 q.2.2 p.2.2.1
            (d_conv g0 I p.1 p.2.1 p.2.2.1 p.2.2.2 *
              I.input.data (p.1 + q.1) (p.2.1 + q.2.1) q.2.2 p.2.2.2))
        t)
    (fun _ _ _ _ => 0)

/-- Modelled from the spec: `propagate_adjoints` is missing from the sources.  Step 3 at
the read `f_bias(z)` of source line 34: every point of the consumer's iteration domain
accumulates `adjoint(conv)(x, y, z, n)` into the adjoint at index `z`. -/
def d_f_bias (g0 : ℚ) (I : Inputs) : Tensor1 :=
  (r_target I).points.foldl
    (fun t p => accumulate1 t p.2.2.1 (d_conv g0 I p.1 p.2.1 p.2.2.1 p.2.2.2))
    (fun _ => 0)

/-- The derivative of the loss, the sum over the points of `compare` of
`(ReLU - compare)^2`, with respect to the value of `conv` at `(x, y, z, n)`: at a point of
the domain of `compare` it is `2 * (ReLU - compare)` times the slope of `max(0, .)` at
`conv(x, y, z, n)`; the loss does not depend on `conv` outside that domain. -/
def conv_adjoint (g0 : ℚ) (I : Inputs) (x y z n : Int) : ℚ :=
  if I.compare.dim0.contains x ∧ I.compare.dim1.contains y ∧
      I.compare.dim2.contains z ∧ I.compare.dim3.contains n then
    2 * (f_ReLU I x y z n - I.compare.data x y z n) * max0_slope g0 (f_conv I x y z n)
  else 0

/-- What a `Func` denotes: a function of the pipeline inputs and of one or four
indices. -/
inductive Func where
  | dim1 (f : Inputs → Tensor1)
  | dim4 (f : Inputs → Tensor4)

/-- A call `f(x, y, z, n)` with four indices; a `Func` of another dimension count
rejects it. -/
def Func.call4 : Func → Option (Inputs → Tensor4)
  | .dim1 _ => none
  | .dim4 f => some f

/-- Modelled from the spec: the adjoint node synthesised for each forward `Func` of this
pipeline (steps 2-4 of the spec's algorithm, see `d_ReLU`, `d_conv`, `d_f_filter`,
`d_f_bias`). -/
def adjoint_node (g0 : ℚ) (f : String) : Option Func :=
  if f = "ReLU" then some (.dim4 d_ReLU)
  else if f = "conv" then some (.dim4 (d_conv g0))
  else if f = "f_filter" then some (.dim4 (d_f_filter g0))
  else if f = "f_bias" then some (.dim1 (d_f_bias g0))
  else none

/-- Modelled from the spec: `propagate_adjoints` is missing from the sources.  Steps 1
and 5: the `Func`s are walked from the loss back to the leaves (the reverse of the
order they are defined in) starting from the `Func`s the loss reads; a `Func` that has
been reached passes the mark on to every `Func` it reads.  The marked names are the
ones that get an adjoint. -/
def adjoint_keys (g : List FuncDef) (roots : List String) : List String :=
  g.reverse.foldl (fun live d => if d.name ∈ live then live ++ d.callees else live) roots

/-- The `Func` named `a` reads the `Func` named `b`: an edge of the dependency graph. -/
def Reads (g : List FuncDef) (a b : String) : Prop :=
  ∃ d ∈ g, d.name = a ∧ b ∈ d.callees

/-- There is a dependency path from one of the `roots` to `f`. -/
def Reaches (g : List FuncDef) (roots : List String) (f : String) : Prop :=
  ∃ r ∈ roots, Relation.ReflTransGen (Reads g) r f

/-- There is a dependency path from the loss expression `l` to the `Func` named `f`: the
loss reads a `Func` from which a chain of reads leads to `f`. -/
def LossReaches (g : List FuncDef) (l : Expr) (f : String) : Prop :=
  Reaches g l.callees f

/-- The `Func`s are listed in definition order: none reads a `Func` defined after it. -/
def DefinitionOrdered (g : List FuncDef) : Prop :=
  g.Pairwise fun e d => d.name ∉ e.callees

/-- Modelled from the spec: the result of `propagate_adjoints`, `AdjointResult{adjoints,
reductions}`: a map from the name of an original `Func` to its adjoint, and a map from
(name, update index) to the reduction domain of that update of the adjoint. -/
structure Derivative where
  adjoints : List (String × Func)
  reductions : List ((String × Nat) × (Inputs → RDom3))

/-- Modelled from the spec: `propagate_adjoints` is missing from the sources.  One
adjoint per `Func` of the graph that the walk from the loss reaches (step 5: a `Func`
with no path gets no entry).  The one reduction the generator asks for, update 0 of
the adjoint of `f_filter`, ranges over the `x`, `y` and `n` of the consumer `conv`. -/
def propagate_adjoints (g0 : ℚ) (g : List FuncDef) (l : Expr) : Derivative :=
  { adjoints :=
      (g.filter (fun d => d.name ∈ adjoint_keys g l.callees)).filterMap
        (fun d => (adjoint_node g0 d.name).map (fun a => (d.name, a)))
    reductions :=
      [(("f_filter", 0),
        fun I => { x := (r_target I).x, y := (r_target I).y, z := (r_target I).w })] }

/-! ## The schedule (source lines 49-124) -/

/-- A bounds estimate: `b.dim(i).set_bounds_estimate(min, extent)` on an input buffer,
`f.estimate(v, min, extent)` on an output. -/
inductive Estimate where
  | dim (b : String) (i : Nat) (min extent : Int)
  | var (f : String) (v : String) (min extent : Int)
deriving DecidableEq, Repr

/-- Source lines 51-77. -/
def estimates : List Estimate :=
  [ .dim "input" 0 0 67, .dim "input" 1 0 67, .dim "input" 2 0 32, .dim "input" 3 0 4,
    .dim "filter" 0 0 3, .dim "filter" 1 0 3, .dim "filter" 2 0 32, .dim "filter" 3 0 32,
    .dim "bias" 0 0 32,
    .dim "compare" 0 0 64, .dim "compare" 1 0 64, .dim "compare" 2 0 32, .dim "compare" 3 0 4,
    .var "ReLU" "x" 0 64, .var "ReLU" "y" 0 64, .var "ReLU" "z" 0 32, .var "ReLU" "n" 0 4,
    .var "d_filter" "x" 0 3, .var "d_filter" "y" 0 3, .var "d_filter" "z" 0 32,
    .var "d_filter" "n" 0 32 ]

/-- A scheduling directive. -/
inductive Directive where
  | compute_root
  | parallel (v : String)
  | vectorize (v : String) (width : Nat)
  | unroll (v : String) (factor : Nat)
  | reorder (vs : List String)
  | allow_race_conditions
deriving DecidableEq, Repr

/-- The stage of a `Func` a directive list is attached to: a forward `Func` or the adjoint
of one, and its pure definition (`none`) or its update `k` (`some k`). -/
structure Stage where
  adjoint : Bool
  func : String
  update : Option Nat
deriving DecidableEq, Repr

/-- Source lines 85-123: the hand-written schedule. -/
def manual_schedule : List (Stage × List Directive) :=
  [ (⟨false, "conv", none⟩, [.compute_root, .parallel "n", .parallel "z", .vectorize "x" 8]),
    (⟨false, "conv", some 0⟩, [.parallel "n", .parallel "z", .vectorize "x" 8]),
    (⟨false, "ReLU", none⟩, [.compute_root, .parallel "n", .parallel "z", .vectorize "x" 8]),
    (⟨true, "ReLU", none⟩, [.compute_root]),
    (⟨true, "ReLU", some 0⟩, [.parallel "n", .parallel "z", .vectorize "x" 8]),
    (⟨true, "ReLU", some 1⟩, [.parallel "n", .parallel "z", .vectorize "x" 8]),
    (⟨true, "f_filter", none⟩, [.compute_root]),
    (⟨true, "f_filter", some 0⟩,
      [.reorder ["r_conv.x", "r_conv.y", "r_conv.z", "z", "n"], .parallel "n", .parallel "z",
       .unroll "y" 3, .unroll "x" 3, .allow_race_conditions, .vectorize "r_conv.x" 8]),
    (⟨true, "f_filter", some 1⟩, [.parallel "n", .parallel "z", .vectorize "x" 8]) ]

/-- How the pipeline is scheduled: by the automatic scheduler from the estimates, or by
the directives written in the generator. -/
inductive Schedule where
  | automatic (estimates : List Estimate)
  | manual (directives : List (Stage × List Directive))
deriving DecidableEq, Repr

/-- The ways `generate()` can fail at a lookup in the adjoint maps. -/
inductive GenError where
  | UndefinedAdjoint (f : String)
  | DimensionMismatch (f : String)
  | UndefinedReduction (f : String) (update : Nat)
deriving DecidableEq, Repr

/-- What `generate()` leaves behind: the algorithm (the `Func`s it defined, the loss, and
what the two outputs `ReLU` and `d_filter` compute) and the schedule. -/
structure Pipeline where
  funcs : List FuncDef
  loss : Expr
  ReLU : Inputs → Tensor4
  d_filter : Inputs → Tensor4
  schedule : Schedule

/-- Source lines 20-125, `generate()`.  The algorithm is built first: the forward
`Func`s, the loss, `propagate_adjoints(loss)` and the output
`d_filter(x, y, z, n) = adjoints[f_filter.name()](x, y, z, n)`.  Then, on
`auto_schedule`, the estimates are set and the automatic scheduler is called;
otherwise the adjoints of `ReLU` and `f_filter` and the reduction of the latter are
looked up and scheduled by hand.  The directives are recorded as written; whether each
names an existing stage or variable is left to the scheduler. -/
def generate (g0 : ℚ) (auto_schedule : Bool) : Except GenError Pipeline :=
  let derivative := propagate_adjoints g0 forward_funcs loss_expr
  let adjoints := derivative.adjoints
  match adjoints.lookup f_filter_def.name with
  | none => .error (.UndefinedAdjoint f_filter_def.name)
  | some a =>
    match a.call4 with
    | none => .error (.DimensionMismatch f_filter_def.name)
    | some d =>
      let algorithm (s : Schedule) : Pipeline :=
        { funcs := pipeline_funcs, loss := loss_expr,
          ReLU := f_ReLU, d_filter := fun I x y z n => d I x y z n, schedule := s }
      if auto_schedule then
        .ok (algorithm (.automatic estimates))
      else
        match adjoints.lookup f_ReLU_def.name with
        | none => .error (.UndefinedAdjoint f_ReLU_def.name)
        | some _ =>
          match derivative.reductions.lookup (f_filter_def.name, 0) with
          | none => .error (.UndefinedReduction f_filter_def.name 0)
          | some _ => .ok (algorithm (.manual manual_schedule))

/-- The d_filter output of the pipeline, `adjoints[f_filter.name()]` (source line 44). -/
def d_filter (g0 : ℚ) (I : Inputs) : Tensor4 :=
  match generate g0 false with
  | .ok p => p.d_filter I
  | .error _ => fun _ _ _ _ => 0

instance (g : List FuncDef) : Decidable (DefinitionOrdered g) :=
  inferInstanceAs (Decidable (List.Pairwise _ g))

/-! ## Bounds estimates -/

/-- The position of the variable `v` among the pure arguments of the `Func` named `f`. -/
def var_position (g : List FuncDef) (f v : String) : Option Nat :=
  match g.find? (fun d => d.name = f) with
  | some d =>
    let vs := d.init.lhs.flatMap IExpr.vars
    if v ∈ vs then some (vs.indexOf v) else none
  | none => none

/-- The range an estimate gives to dimension `i` of `name`, when it is about that
dimension. -/
def Estimate.covers (g : List FuncDef) (name : String) (i : Nat) : Estimate → Option Dim
  | .dim b j mn ex => if b = name ∧ j = i then some ⟨mn, ex⟩ else none
  | .var f v mn ex => if f = name ∧ var_position g f v = some i then some ⟨mn, ex⟩ else none

/-- The estimated range of dimension `i` of the buffer or output `name`. -/
def estimate_of (g : List FuncDef) (es : List Estimate) (name : String) (i : Nat) : Option Dim :=
  es.findSome? (Estimate.covers g name i)

/-- The estimated ranges of the first `k` dimensions of `name`. -/
def estimate_box (g : List FuncDef) (es : List Estimate) (name : String) (k : Nat) :
    List (Option Dim) :=
  (List.range k).map (estimate_of g es name)

/-- The index `v` lies in the estimated range of dimension `i` of `name`. -/
def in_estimate (g : List FuncDef) (es : List Estimate) (name : String) (i : Nat) (v : Int) :
    Prop :=
  match estimate_of g es name i with
  | some d => d.contains v
  | none => False

instance (g : List FuncDef) (es : List Estimate) (name : String) (i : Nat) (v : Int) :
    Decidable (in_estimate g es name i v) :=
  match h : estimate_of g es name i with
  | some d => decidable_of_iff (d.contains v) (by simp [in_estimate, h])
  | none => isFalse (by simp [in_estimate, h])

/-! ## The 1x1 scenario -/

/-- The forward part of the spec's scenario: a 1x1 single-channel input holding `i`, a 1x1
filter holding `f`, and a bias of 0. -/
def UnitForward (I : Inputs) (f i : ℚ) : Prop :=
  (I.input.dim0 = ⟨0, 1⟩ ∧ I.input.dim1 = ⟨0, 1⟩ ∧ I.input.dim2 = ⟨0, 1⟩ ∧ I.input.dim3 = ⟨0, 1⟩) ∧
  (I.filter.dim0 = ⟨0, 1⟩ ∧ I.filter.dim1 = ⟨0, 1⟩ ∧ I.filter.dim2 = ⟨0, 1⟩ ∧
    I.filter.dim3 = ⟨0, 1⟩) ∧
  I.bias.dim0 = ⟨0, 1⟩ ∧
  I.input.data 0 0 0 0 = i ∧ I.filter.data 0 0 0 0 = f ∧ I.bias.data 0 = 0

/-- The spec's scenario: `UnitForward` and a 1x1 compare tensor holding 0. -/
def UnitScenario (I : Inputs) (f i : ℚ) : Prop :=
  UnitForward I f i ∧
  (I.compare.dim0 = ⟨0, 1⟩ ∧ I.compare.dim1 = ⟨0, 1⟩ ∧ I.compare.dim2 = ⟨0, 1⟩ ∧
    I.compare.dim3 = ⟨0, 1⟩) ∧
  I.compare.data 0 0 0 0 = 0

/-- A 1x1x1x1 buffer holding `v`. -/
def unit_buffer (v : ℚ) : Buffer4 :=
  { dim0 := ⟨0, 1⟩, dim1 := ⟨0, 1⟩, dim2 := ⟨0, 1⟩, dim3 := ⟨0, 1⟩, data := fun _ _ _ _ => v }

/-- Inputs of the 1x1 scenario: input `i`, filter `f`, bias 0 and compare `c`. -/
def unit_inputs (f i c : ℚ) : Inputs :=
  { input := unit_buffer i, filter := unit_buffer f,
    bias := { dim0 := ⟨0, 1⟩, data := fun _ => 0 }, compare := unit_buffer c }

/-- A small example: a 3x3 single-channel image, a 2x2 filter for two output channels, and
a 2x2 two-channel reference. -/
def example_inputs : Inputs :=
  { input :=
      { dim0 := ⟨0, 3⟩, dim1 := ⟨0, 3⟩, dim2 := ⟨0, 1⟩, dim3 := ⟨0, 1⟩,
        data := fun x y _ _ => (x : ℚ) - 2 * y }
    filter :=
      { dim0 := ⟨0, 2⟩, dim1 := ⟨0, 2⟩, dim2 := ⟨0, 1⟩, dim3 := ⟨0, 2⟩,
        data := fun x y _ n => 1 + x * y - n }
    bias := { dim0 := ⟨0, 2⟩, data := fun z => (z : ℚ) / 2 }
    compare :=
      { dim0 := ⟨0, 2⟩, dim1 := ⟨0, 2⟩, dim2 := ⟨0, 2⟩, dim3 := ⟨0, 1⟩,
        data := fun x _ z _ => (x : ℚ) + z } }

/-! ## Evaluating the graph -/

/-- The value of an index expression, given the pure variables `σ` and the reduction
variables `ρ` (by domain and axis). -/
def IExpr.eval (σ : String → Int) (ρ : String → Nat → Int) : IExpr → Int
  | .var v => σ v
  | .rvar d a => ρ d a
  | .add a b => a.eval σ ρ + b.eval σ ρ

/-- What an expression can refer to: the `Func`s defined so far, the input buffers, and the
adjoints of `propagate_adjoints`. -/
structure Env where
  func : String → List Int → ℚ
  image : String → List Int → ℚ
  adjoint : String → List Int → ℚ

/-- The value of an expression. -/
def Expr.eval (E : Env) (σ : String → Int) (ρ : String → Nat → Int) : Expr → ℚ
  | .lit c => (c : ℚ)
  | .call f args => E.func f (args.map (IExpr.eval σ ρ))
  | .image b args => E.image b (args.map (IExpr.eval σ ρ))
  | .adjoint f args => E.adjoint f (args.map (IExpr.eval σ ρ))
  | .add a b => a.eval E σ ρ + b.eval E σ ρ
  | .sub a b => a.eval E σ ρ - b.eval E σ ρ
  | .mul a b => a.eval E σ ρ * b.eval E σ ρ
  | .max a b => Max.max (a.eval E σ ρ) (b.eval E σ ρ)

/-- The points of a box of dimensions in loop order, first axis innermost. -/
def box_points : List Dim → List (List Int)
  | [] => [[]]
  | d :: ds => (box_points ds).flatMap fun rest => (axisPoints d).map fun v => v :: rest

/-- The dimensions of the reduction domains of `generate()` (source lines 26-28 and 38). -/
def rdom_dims (I : Inputs) (dom : String) : List Dim :=
  if dom = "r" then [(r I).x, (r I).y, (r I).z]
  else if dom = "r_target" then [(r_target I).x, (r_target I).y, (r_target I).z, (r_target I).w]
  else []

/-- A read of an input buffer by name. -/
def read_image (I : Inputs) (b : String) (idx : List Int) : ℚ :=
  match idx with
  | [x, y, z, n] =>
    if b = "input" then I.input.data x y z n
    else if b = "filter" then I.filter.data x y z n
    else if b = "compare" then I.compare.data x y z n
    else 0
  | [z] => if b = "bias" then I.bias.data z else 0
  | _ => 0

/-- A call of an adjoint of `propagate_adjoints` by the name of the `Func` it belongs to. -/
def read_adjoint (D : Derivative) (I : Inputs) (f : String) (idx : List Int) : ℚ :=
  match D.adjoints.lookup f, idx with
  | some (.dim4 a), [x, y, z, n] => a I x y z n
  | some (.dim1 a), [z] => a I z
  | _, _ => 0

/-- The value of a `Func` at an index: the pure definition, then each update run over the
points of its reduction domain, each point adding its right-hand side. -/
def FuncDef.eval (I : Inputs) (E : Env) (d : FuncDef) (idx : List Int) : ℚ :=
  let vs := d.init.lhs.flatMap IExpr.vars
  let σ : String → Int := fun v => idx.getD (vs.indexOf v) 0
  d.updates.foldl
    (fun acc u =>
      match u.rhs.domains with
      | [] => acc + u.rhs.eval E σ (fun _ _ => 0)
      | dom :: _ =>
        (box_points (rdom_dims I dom)).foldl
          (fun acc pt => acc + u.rhs.eval E σ (fun _ a => pt.getD a 0)) acc)
    (d.init.rhs.eval E σ (fun _ _ => 0))

/-- The `Func`s of a graph, evaluated in definition order. -/
def realize (D : Derivative) (I : Inputs) (g : List FuncDef) : String → List Int → ℚ :=
  g.foldl
    (fun env d => fun name idx =>
      if name = d.name then
        d.eval I { func := env, image := read_image I, adjoint := read_adjoint D I } idx
      else env name idx)
    (fun _ _ => 0)

/-! ## The loss as a function of `conv` -/

/-- The loss as a function of the values of `conv`: the sum over the points of `r_target`
of `(max(0, conv) - compare)^2`. -/
def loss_of_conv (I : Inputs) (cv : Tensor4) : ℚ :=
  (r_target I).points.foldl
    (fun acc p =>
      acc + (max 0 (cv p.1 p.2.1 p.2.2.1 p.2.2.2) - I.compare.data p.1 p.2.1 p.2.2.1 p.2.2.2) *
        (max 0 (cv p.1 p.2.1 p.2.2.1 p.2.2.2) - I.compare.data p.1 p.2.1 p.2.2.1 p.2.2.2))
    0



/-! ## Helper lemmas on loops -/

theorem foldl_add_eq_sum {α : Type} (g : α → ℚ) (l : List α) (a : ℚ) :
    l.foldl (fun acc p => acc + g p) a = a + (l.map g).sum := by
  induction l generalizing a with
  | nil => simp
  | cons h t ih => simp [ih, add_assoc]

theorem axisPoints_nodup (d : Dim) : (axisPoints d).Nodup := by
  unfold axisPoints
  refine List.Nodup.map ?_ (List.nodup_range _)
  intro a b h
  simpa using h

theorem mem_axisPoints (d : Dim) (i : Int) :
    i ∈ axisPoints d ↔ d.min ≤ i ∧ i < d.min + d.extent := by
  unfold axisPoints
  simp only [List.mem_map, List.mem_range]
  constructor
  · rintro ⟨k, hk, rfl⟩
    omega
  · intro h
    refine ⟨(i - d.min).toNat, ?_, ?_⟩ <;> omega

theorem axisPoints_toFinset (d : Dim) :
    (axisPoints d).toFinset = Finset.Ico d.min (d.min + d.extent) := by
  ext i
  simp [mem_axisPoints]

theorem sum_axisPoints (d : Dim) (g : Int → ℚ) :
    ((axisPoints d).map g).sum = ∑ i ∈ Finset.Ico d.min (d.min + d.extent), g i := by
  rw [← axisPoints_toFinset, List.sum_toFinset g (axisPoints_nodup d)]


theorem sum_map_flatMap {α β : Type} (l : List α) (f : α → List β) (g : β → ℚ) :
    ((l.flatMap f).map g).sum = (l.map (fun a => ((f a).map g).sum)).sum := by
  induction l with
  | nil => simp
  | cons h t ih => simp [List.flatMap_cons, ih]

theorem sum_points3 (d : RDom3) (g : Int × Int × Int → ℚ) :
    (d.points.map g).sum =
      ∑ rz ∈ Finset.Ico d.z.min (d.z.min + d.z.extent),
        ∑ ry ∈ Finset.Ico d.y.min (d.y.min + d.y.extent),
          ∑ rx ∈ Finset.Ico d.x.min (d.x.min + d.x.extent), g (rx, ry, rz) := by
  unfold RDom3.points
  rw [sum_map_flatMap, sum_axisPoints]
  refine Finset.sum_congr rfl fun rz _ => ?_
  rw [sum_map_flatMap, sum_axisPoints]
  refine Finset.sum_congr rfl fun ry _ => ?_
  rw [List.map_map, sum_axisPoints]
  rfl

theorem sum_points4 (d : RDom4) (g : Int × Int × Int × Int → ℚ) :
    (d.points.map g).sum =
      ∑ rw ∈ Finset.Ico d.w.min (d.w.min + d.w.extent),
        ∑ rz ∈ Finset.Ico d.z.min (d.z.min + d.z.extent),
          ∑ ry ∈ Finset.Ico d.y.min (d.y.min + d.y.extent),
            ∑ rx ∈ Finset.Ico d.x.min (d.x.min + d.x.extent), g (rx, ry, rz, rw) := by
  unfold RDom4.points
  rw [sum_map_flatMap, sum_axisPoints]
  refine Finset.sum_congr rfl fun rw _ => ?_
  rw [sum_map_flatMap, sum_axisPoints]
  refine Finset.sum_congr rfl fun rz _ => ?_
  rw [sum_map_flatMap, sum_axisPoints]
  refine Finset.sum_congr rfl fun ry _ => ?_
  rw [List.map_map, sum_axisPoints]
  rfl

/-- The accumulation of `f_conv` as a sum over the box of `r`. -/
theorem f_conv_eq_sum (I : Inputs) (x y z n : Int) :
    f_conv I x y z n =
      I.bias.data z +
        ∑ rz ∈ Finset.Ico I.filter.dim2.min (I.filter.dim2.min + I.filter.dim2.extent),
          ∑ ry ∈ Finset.Ico I.filter.dim1.min (I.filter.dim1.min + I.filter.dim1.extent),
            ∑ rx ∈ Finset.Ico I.filter.dim0.min (I.filter.dim0.min + I.filter.dim0.extent),
              I.filter.data rx ry rz z * I.input.data (x + rx) (y + ry) rz n := by
  unfold f_conv
  rw [foldl_add_eq_sum
    (fun (p : Int × Int × Int) =>
      f_filter I p.1 p.2.1 p.2.2 z * I.input.data (x + p.1) (y + p.2.1) p.2.2 n),
    sum_points3]
  rfl

/-! ## Helper lemmas on accumulating writes -/

theorem generate_ok (g0 : ℚ) (b : Bool) :
    generate g0 b = .ok
      { funcs := pipeline_funcs, loss := loss_expr,
        ReLU := f_ReLU, d_filter := d_f_filter g0,
        schedule := if b then .automatic estimates else .manual manual_schedule } := by
  cases b <;> rfl


theorem foldl_pointwise4 {α : Type} (step : Tensor4 → α → Tensor4) (S : α → Tensor4)
    (h : ∀ t p a b c k, step t p a b c k = t a b c k + S p a b c k)
    (l : List α) (t0 : Tensor4) (a b c k : Int) :
    l.foldl step t0 a b c k = t0 a b c k + (l.map (fun p => S p a b c k)).sum := by
  induction l generalizing t0 with
  | nil => simp
  | cons p t ih => simp [ih, h, add_assoc]

theorem accumulate4_apply (t : Tensor4) (x y z n : Int) (v : ℚ) (a b c k : Int) :
    accumulate4 t x y z n v a b c k =
      t a b c k + (if a = x ∧ b = y ∧ c = z ∧ k = n then v else 0) := by
  unfold accumulate4
  split <;> simp

theorem d_ReLU_eq_sum (I : Inputs) (a b c k : Int) :
    d_ReLU I a b c k =
      ∑ w ∈ Finset.Ico I.compare.dim3.min (I.compare.dim3.min + I.compare.dim3.extent),
        ∑ z ∈ Finset.Ico I.compare.dim2.min (I.compare.dim2.min + I.compare.dim2.extent),
          ∑ y ∈ Finset.Ico I.compare.dim1.min (I.compare.dim1.min + I.compare.dim1.extent),
            ∑ x ∈ Finset.Ico I.compare.dim0.min (I.compare.dim0.min + I.compare.dim0.extent),
              (if a = x ∧ b = y ∧ c = z ∧ k = w then 2 * diff I x y z w else 0) := by
  unfold d_ReLU
  rw [foldl_pointwise4 _
    (fun (p : Int × Int × Int × Int) a b c k =>
      if a = p.1 ∧ b = p.2.1 ∧ c = p.2.2.1 ∧ k = p.2.2.2
      then 2 * diff I p.1 p.2.1 p.2.2.1 p.2.2.2 else 0)
    (fun t p a b c k => accumulate4_apply t _ _ _ _ _ a b c k),
    sum_points4]
  simp [r_target]

theorem sum4_indicator (X Y Z W : Finset Int) (F : Int → Int → Int → Int → ℚ) (a b c k : Int) :
    (∑ w ∈ W, ∑ z ∈ Z, ∑ y ∈ Y, ∑ x ∈ X,
        (if a = x ∧ b = y ∧ c = z ∧ k = w then F x y z w else 0)) =
      if a ∈ X ∧ b ∈ Y ∧ c ∈ Z ∧ k ∈ W then F a b c k else 0 := by
  simp only [ite_and, Finset.sum_ite_eq]
  by_cases ha : a ∈ X <;> by_cases hb : b ∈ Y <;> by_cases hc : c ∈ Z <;> by_cases hk : k ∈ W <;>
    simp [ha, hb, hc, hk, Finset.sum_ite_eq]

theorem sum3_indicator (X Y Z : Finset Int) (F : Int → Int → Int → ℚ) (a b c : Int) :
    (∑ z ∈ Z, ∑ y ∈ Y, ∑ x ∈ X, (if a = x ∧ b = y ∧ c = z then F x y z else 0)) =
      if a ∈ X ∧ b ∈ Y ∧ c ∈ Z then F a b c else 0 := by
  simp only [ite_and, Finset.sum_ite_eq]
  by_cases ha : a ∈ X <;> by_cases hb : b ∈ Y <;> by_cases hc : c ∈ Z <;>
    simp [ha, hb, hc, Finset.sum_ite_eq]

theorem mem_Ico_iff_contains (d : Dim) (i : Int) :
    i ∈ Finset.Ico d.min (d.min + d.extent) ↔ d.contains i := by
  simp [Dim.contains, Finset.mem_Ico]

theorem d_ReLU_eq (I : Inputs) (x y z n : Int) :
    d_ReLU I x y z n =
      if I.compare.dim0.contains x ∧ I.compare.dim1.contains y ∧
          I.compare.dim2.contains z ∧ I.compare.dim3.contains n then
        2 * diff I x y z n
      else 0 := by
  rw [d_ReLU_eq_sum, sum4_indicator]
  simp only [mem_Ico_iff_contains]

theorem d_conv_eq (g0 : ℚ) (I : Inputs) (x y z n : Int) :
    d_conv g0 I x y z n = conv_adjoint g0 I x y z n := by
  unfold d_conv conv_adjoint
  rw [d_ReLU_eq]
  split_ifs <;> simp [diff]

theorem sum_ite_const (s : Finset Int) (P : Prop) [Decidable P] (f : Int → ℚ) :
    (∑ x ∈ s, if P then f x else 0) = if P then ∑ x ∈ s, f x else 0 := by
  split_ifs <;> simp

theorem d_f_filter_eq_sum (g0 : ℚ) (I : Inputs) (a b c k : Int) :
    d_f_filter g0 I a b c k =
      ∑ n ∈ Finset.Ico I.compare.dim3.min (I.compare.dim3.min + I.compare.dim3.extent),
        ∑ z ∈ Finset.Ico I.compare.dim2.min (I.compare.dim2.min + I.compare.dim2.extent),
          ∑ y ∈ Finset.Ico I.compare.dim1.min (I.compare.dim1.min + I.compare.dim1.extent),
            ∑ x ∈ Finset.Ico I.compare.dim0.min (I.compare.dim0.min + I.compare.dim0.extent),
              ∑ rz ∈ Finset.Ico I.filter.dim2.min (I.filter.dim2.min + I.filter.dim2.extent),
                ∑ ry ∈ Finset.Ico I.filter.dim1.min (I.filter.dim1.min + I.filter.dim1.extent),
                  ∑ rx ∈ Finset.Ico I.filter.dim0.min (I.filter.dim0.min + I.filter.dim0.extent),
                    (if a = rx ∧ b = ry ∧ c = rz ∧ k = z then
                      d_conv g0 I x y z n * I.input.data (x + rx) (y + ry) rz n
                    else 0) := by
  unfold d_f_filter
  rw [foldl_pointwise4 _
    (fun (p : Int × Int × Int × Int) a b c k =>
      ((r I).points.map (fun (q : Int × Int × Int) =>
        if a = q.1 ∧ b = q.2.1 ∧ c = q.2.2 ∧ k = p.2.2.1 then
          d_conv g0 I p.1 p.2.1 p.2.2.1 p.2.2.2 *
            I.input.data (p.1 + q.1) (p.2.1 + q.2.1) q.2.2 p.2.2.2
        else 0)).sum)
    (fun t p a b c k => by
      rw [foldl_pointwise4 _
        (fun (q : Int × Int × Int) a b c k =>
          if a = q.1 ∧ b = q.2.1 ∧ c = q.2.2 ∧ k = p.2.2.1 then
            d_conv g0 I p.1 p.2.1 p.2.2.1 p.2.2.2 *
              I.input.data (p.1 + q.1) (p.2.1 + q.2.1) q.2.2 p.2.2.2
          else 0)
        (fun t q a b c k => accumulate4_apply t _ _ _ _ _ a b c k)]),
    sum_points4]
  simp only [sum_points3, zero_add]
  rfl

/-- The adjoint of `f_filter` in gather form, at every index. -/
theorem d_f_filter_eq (g0 : ℚ) (I : Inputs) (a b c k : Int) :
    d_f_filter g0 I a b c k =
      if I.filter.dim0.contains a ∧ I.filter.dim1.contains b ∧ I.filter.dim2.contains c then
        ∑ n ∈ Finset.Ico I.compare.dim3.min (I.compare.dim3.min + I.compare.dim3.extent),
          ∑ y ∈ Finset.Ico I.compare.dim1.min (I.compare.dim1.min + I.compare.dim1.extent),
            ∑ x ∈ Finset.Ico I.compare.dim0.min (I.compare.dim0.min + I.compare.dim0.extent),
              conv_adjoint g0 I x y k n * I.input.data (x + a) (y + b) c n
      else 0 := by
  rw [d_f_filter_eq_sum]
  have inner : ∀ x y z n : Int,
      (∑ rz ∈ Finset.Ico I.filter.dim2.min (I.filter.dim2.min + I.filter.dim2.extent),
        ∑ ry ∈ Finset.Ico I.filter.dim1.min (I.filter.dim1.min + I.filter.dim1.extent),
          ∑ rx ∈ Finset.Ico I.filter.dim0.min (I.filter.dim0.min + I.filter.dim0.extent),
            (if a = rx ∧ b = ry ∧ c = rz ∧ k = z then
              d_conv g0 I x y z n * I.input.data (x + rx) (y + ry) rz n
            else 0)) =
        if I.filter.dim0.contains a ∧ I.filter.dim1.contains b ∧ I.filter.dim2.contains c then
          (if k = z then d_conv g0 I x y z n * I.input.data (x + a) (y + b) c n else 0)
        else 0 := by
    intro x y z n
    have := sum3_indicator
      (Finset.Ico I.filter.dim0.min (I.filter.dim0.min + I.filter.dim0.extent))
      (Finset.Ico I.filter.dim1.min (I.filter.dim1.min + I.filter.dim1.extent))
      (Finset.Ico I.filter.dim2.min (I.filter.dim2.min + I.filter.dim2.extent))
      (fun rx ry rz =>
        if k = z then d_conv g0 I x y z n * I.input.data (x + rx) (y + ry) rz n else 0) a b c
    simp only [mem_Ico_iff_contains] at this
    rw [← this]
    refine Finset.sum_congr rfl fun rz _ => Finset.sum_congr rfl fun ry _ =>
      Finset.sum_congr rfl fun rx _ => ?_
    by_cases h1 : a = rx <;> by_cases h2 : b = ry <;> by_cases h3 : c = rz <;>
      by_cases h4 : k = z <;> simp [h1, h2, h3, h4]
  simp only [inner]
  by_cases hR : I.filter.dim0.contains a ∧ I.filter.dim1.contains b ∧ I.filter.dim2.contains c
  · simp only [hR, and_self, if_true]
    refine Finset.sum_congr rfl fun n hn => ?_
    rw [Finset.sum_comm]
    simp only [Finset.sum_comm (s := Finset.Ico I.compare.dim2.min _)]
    refine Finset.sum_congr rfl fun y hy => Finset.sum_congr rfl fun x hx => ?_
    rw [Finset.sum_ite_eq, d_conv_eq]
    split_ifs with hk
    · rfl
    · have : conv_adjoint g0 I x y k n = 0 := by
        unfold conv_adjoint
        rw [mem_Ico_iff_contains] at hk
        simp [hk]
      simp [this]
  · simp [hR]

/-! ## Helper lemmas on the dependency graph -/

theorem reads_cons (d : FuncDef) (g : List FuncDef) (a b : String) :
    Reads (d :: g) a b ↔ (d.name = a ∧ b ∈ d.callees) ∨ Reads g a b := by
  simp [Reads]

theorem reads_mono {d : FuncDef} {g : List FuncDef} {a b : String}
    (h : Relation.ReflTransGen (Reads g) a b) : Relation.ReflTransGen (Reads (d :: g)) a b :=
  Relation.ReflTransGen.mono (fun _ _ hab => (reads_cons d g _ _).2 (Or.inr hab)) h

/-- A path in `d :: g` is a path in `g`, or ends with a path in `g` from a callee of `d`. -/
theorem path_split (d : FuncDef) (g : List FuncDef) {a f : String}
    (h : Relation.ReflTransGen (Reads (d :: g)) a f) :
    Relation.ReflTransGen (Reads g) a f ∨
      ∃ c ∈ d.callees, Relation.ReflTransGen (Reads g) c f := by
  induction h using Relation.ReflTransGen.head_induction_on with
  | refl => exact Or.inl Relation.ReflTransGen.refl
  | head hab _ ih =>
    rcases ih with ih | ih
    · rcases (reads_cons d g _ _).1 hab with ⟨_, hb⟩ | hg
      · exact Or.inr ⟨_, hb, ih⟩
      · exact Or.inl (Relation.ReflTransGen.head hg ih)
    · exact Or.inr ih

/-- When nothing in `g` reads `d` and the path does not start at `d`, the path never
passes through `d`. -/
theorem path_avoid (d : FuncDef) (g : List FuncDef) (hd : ∀ e ∈ g, d.name ∉ e.callees)
    {a f : String} (ha : a ≠ d.name) (h : Relation.ReflTransGen (Reads (d :: g)) a f) :
    f ≠ d.name ∧ Relation.ReflTransGen (Reads g) a f := by
  induction h with
  | refl => exact ⟨ha, Relation.ReflTransGen.refl⟩
  | tail _ hbc ih =>
    obtain ⟨hb, hab⟩ := ih
    rcases (reads_cons d g _ _).1 hbc with ⟨hn, _⟩ | hg
    · exact absurd hn.symm hb
    · obtain ⟨e, he, _, hc⟩ := hg
      refine ⟨?_, Relation.ReflTransGen.tail hab ⟨e, he, ‹_›, hc⟩⟩
      rintro rfl
      exact hd e he hc

/-- The marking walk is correct on any list in which no `Func` is read by a later one. -/
theorem mem_walk_iff (gr : List FuncDef) (hgr : gr.Pairwise fun d e => d.name ∉ e.callees)
    (live : List String) (f : String) :
    f ∈ gr.foldl (fun live d => if d.name ∈ live then live ++ d.callees else live) live ↔
      Reaches gr live f := by
  induction gr generalizing live with
  | nil =>
    simp only [List.foldl_nil, Reaches]
    constructor
    · intro h
      exact ⟨f, h, Relation.ReflTransGen.refl⟩
    · rintro ⟨r, hr, hp⟩
      induction hp with
      | refl => exact hr
      | tail _ hbc _ =>
        obtain ⟨e, he, _⟩ := hbc
        simp at he
  | cons d rest ih =>
    rw [List.pairwise_cons] at hgr
    rw [List.foldl_cons, ih hgr.2]
    by_cases hl : d.name ∈ live
    · simp only [hl, if_true, Reaches]
      constructor
      · rintro ⟨r, hr, hp⟩
        rcases List.mem_append.1 hr with hr | hr
        · exact ⟨r, hr, reads_mono hp⟩
        · exact ⟨d.name, hl,
            Relation.ReflTransGen.head ((reads_cons d rest _ _).2 (Or.inl ⟨rfl, hr⟩))
              (reads_mono hp)⟩
      · rintro ⟨r, hr, hp⟩
        rcases path_split d rest hp with hp | ⟨c, hc, hp⟩
        · exact ⟨r, List.mem_append.2 (Or.inl hr), hp⟩
        · exact ⟨c, List.mem_append.2 (Or.inr hc), hp⟩
    · simp only [hl, if_false, Reaches]
      constructor
      · rintro ⟨r, hr, hp⟩
        exact ⟨r, hr, reads_mono hp⟩
      · rintro ⟨r, hr, hp⟩
        have hne : r ≠ d.name := by
          rintro rfl
          exact hl hr
        exact ⟨r, hr, (path_avoid d rest hgr.1 hne hp).2⟩

theorem reads_reverse (g : List FuncDef) (a b : String) :
    Reads g.reverse a b ↔ Reads g a b := by
  simp [Reads]

/-- On a graph listed in definition order, the walk marks exactly the `Func`s that a
dependency path from the roots leads to. -/
theorem mem_adjoint_keys_iff (g : List FuncDef) (hg : DefinitionOrdered g)
    (roots : List String) (f : String) :
    f ∈ adjoint_keys g roots ↔ Reaches g roots f := by
  unfold adjoint_keys
  rw [mem_walk_iff g.reverse (List.pairwise_reverse.2 hg)]
  have : Reads g.reverse = Reads g := by
    funext a b
    exact propext (reads_reverse g a b)
  simp only [Reaches, this]



/-! ## Helper lemmas on the 1x1 scenario -/

theorem d_filter_eq (g0 : ℚ) (I : Inputs) : d_filter g0 I = d_f_filter g0 I := by
  rfl

theorem Ico_unit : Finset.Ico (0 : Int) 1 = {0} := by
  ext i
  simp only [Finset.mem_Ico, Finset.mem_singleton]
  omega

theorem unit_conv (I : Inputs) (f i : ℚ) (h : UnitForward I f i) (z n : Int) :
    f_conv I 0 0 z n = I.bias.data z + I.filter.data 0 0 0 z * I.input.data 0 0 0 n := by
  obtain ⟨_, ⟨h0, h1, h2, _⟩, _⟩ := h
  rw [f_conv_eq_sum, h0, h1, h2]
  simp [Ico_unit]

theorem unit_conv_origin (I : Inputs) (f i : ℚ) (h : UnitForward I f i) :
    f_conv I 0 0 0 0 = f * i := by
  rw [unit_conv I f i h]
  obtain ⟨_, _, _, hi, hf, hb⟩ := h
  rw [hi, hf, hb, zero_add]

theorem unit_d_filter (g0 : ℚ) (I : Inputs) (f i : ℚ) (h : UnitScenario I f i) :
    d_f_filter g0 I 0 0 0 0 = if 0 ≤ f * i then 2 * f * i ^ 2 else 0 := by
  have hconv := unit_conv_origin I f i h.1
  obtain ⟨⟨_, ⟨h0, h1, h2, _⟩, _, hi, _, _⟩, ⟨c0, c1, c2, c3⟩, hc⟩ := h
  rw [d_f_filter_eq, h0, h1, h2, c0, c1, c3]
  simp only [zero_add, Ico_unit, Finset.sum_singleton, add_zero]
  have hin : (⟨0, 1⟩ : Dim).contains 0 := by decide
  simp only [hin, and_self, if_true, conv_adjoint, c0, c1, c2, c3, f_ReLU, hconv, hc, hi, sub_zero,
    max0_slope]
  rcases lt_trichotomy (f * i) 0 with hneg | hzero | hpos
  · have h1 : ¬ 0 ≤ f * i := not_le.2 hneg
    have h2 : ¬ 0 < f * i := fun hh => absurd hneg (not_lt.2 hh.le)
    simp [h1, h2, max_eq_left hneg.le]
  · have : f * i ^ 2 = 0 := by
      rw [pow_two, ← mul_assoc, hzero, zero_mul]
    simp [hzero, mul_assoc, this]
  · simp only [hpos, hpos.le, if_true, max_eq_right hpos.le]
    ring

/-! ## Helper lemmas on the adjoint map -/

theorem adjoint_names (g0 : ℚ) :
    (propagate_adjoints g0 forward_funcs loss_expr).adjoints.map Prod.fst =
      ["f_filter", "f_bias", "conv", "ReLU"] := by
  rfl

theorem lookup_isSome_iff {β : Type} (l : List (String × β)) (f : String) :
    (l.lookup f).isSome ↔ f ∈ l.map Prod.fst := by
  induction l with
  | nil => simp
  | cons p t ih =>
    obtain ⟨k, v⟩ := p
    by_cases h : f = k
    · subst h
      simp [List.lookup]
    · have hb : (f == k) = false := by simpa using h
      simp [List.lookup, hb, ih, h]

theorem loss_reaches_iff (f : String) :
    LossReaches forward_funcs loss_expr f ↔ f ∈ ["f_filter", "f_bias", "conv", "ReLU"] := by
  unfold LossReaches
  rw [← mem_adjoint_keys_iff forward_funcs (by decide)]
  have : adjoint_keys forward_funcs loss_expr.callees =
      ["ReLU", "ReLU", "conv", "f_bias", "conv", "f_filter"] := by decide
  rw [this]
  simp only [List.mem_cons, List.mem_singleton, List.not_mem_nil, or_false]
  tauto


/-! ## Helper lemmas on the loss -/

theorem total_loss_eq_sum (I : Inputs) :
    total_loss I =
      ∑ w ∈ Finset.Ico I.compare.dim3.min (I.compare.dim3.min + I.compare.dim3.extent),
        ∑ z ∈ Finset.Ico I.compare.dim2.min (I.compare.dim2.min + I.compare.dim2.extent),
          ∑ y ∈ Finset.Ico I.compare.dim1.min (I.compare.dim1.min + I.compare.dim1.extent),
            ∑ x ∈ Finset.Ico I.compare.dim0.min (I.compare.dim0.min + I.compare.dim0.extent),
              (f_ReLU I x y z w - I.compare.data x y z w) ^ 2 := by
  unfold total_loss
  rw [foldl_add_eq_sum (fun (p : Int × Int × Int × Int) => loss I p.1 p.2.1 p.2.2.1 p.2.2.2),
    sum_points4, zero_add]
  simp only [loss, diff, r_target, pow_two]

theorem total_loss_nonneg (I : Inputs) : 0 ≤ total_loss I := by
  rw [total_loss_eq_sum]
  exact Finset.sum_nonneg fun _ _ => Finset.sum_nonneg fun _ _ => Finset.sum_nonneg fun _ _ =>
    Finset.sum_nonneg fun _ _ => sq_nonneg _

theorem total_loss_zero (I : Inputs)
    (h : ∀ x y z n : Int, I.compare.dim0.contains x → I.compare.dim1.contains y →
      I.compare.dim2.contains z → I.compare.dim3.contains n →
      f_ReLU I x y z n = I.compare.data x y z n) :
    total_loss I = 0 := by
  rw [total_loss_eq_sum]
  refine Finset.sum_eq_zero fun w hw => Finset.sum_eq_zero fun z hz =>
    Finset.sum_eq_zero fun y hy => Finset.sum_eq_zero fun x hx => ?_
  rw [mem_Ico_iff_contains] at hw hz hy hx
  rw [h x y z w hx hy hz hw, sub_self]
  norm_num

theorem conv_adjoint_zero (g0 : ℚ) (I : Inputs)
    (h : ∀ x y z n : Int, I.compare.dim0.contains x → I.compare.dim1.contains y →
      I.compare.dim2.contains z → I.compare.dim3.contains n →
      f_ReLU I x y z n = I.compare.data x y z n) (x y z n : Int) :
    conv_adjoint g0 I x y z n = 0 := by
  unfold conv_adjoint
  split_ifs with hin
  · rw [h x y z n hin.1 hin.2.1 hin.2.2.1 hin.2.2.2, sub_self]
    simp
  · rfl

theorem d_f_filter_zero (g0 : ℚ) (I : Inputs)
    (h : ∀ x y z n : Int, I.compare.dim0.contains x → I.compare.dim1.contains y →
      I.compare.dim2.contains z → I.compare.dim3.contains n →
      f_ReLU I x y z n = I.compare.data x y z n) (a b c k : Int) :
    d_f_filter g0 I a b c k = 0 := by
  rw [d_f_filter_eq]
  simp [conv_adjoint_zero g0 I h]

/-! ## Helper lemmas on the estimates -/

theorem estimate_boxes :
    estimate_box pipeline_funcs estimates "input" 4 =
        [some ⟨0, 67⟩, some ⟨0, 67⟩, some ⟨0, 32⟩, some ⟨0, 4⟩] ∧
    estimate_box pipeline_funcs estimates "filter" 4 =
        [some ⟨0, 3⟩, some ⟨0, 3⟩, some ⟨0, 32⟩, some ⟨0, 32⟩] ∧
    estimate_box pipeline_funcs estimates "bias" 1 = [some ⟨0, 32⟩] ∧
    estimate_box pipeline_funcs estimates "compare" 4 =
        [some ⟨0, 64⟩, some ⟨0, 64⟩, some ⟨0, 32⟩, some ⟨0, 4⟩] ∧
    estimate_box pipeline_funcs estimates "ReLU" 4 =
        [some ⟨0, 64⟩, some ⟨0, 64⟩, some ⟨0, 32⟩, some ⟨0, 4⟩] ∧
    estimate_box pipeline_funcs estimates "d_filter" 4 =
        [some ⟨0, 3⟩, some ⟨0, 3⟩, some ⟨0, 32⟩, some ⟨0, 32⟩] := by
  decide

theorem in_estimate_iff (name : String) (i : Nat) (d : Dim)
    (h : estimate_of pipeline_funcs estimates name i = some d) (v : Int) :
    in_estimate pipeline_funcs estimates name i v ↔ d.min ≤ v ∧ v < d.min + d.extent := by
  unfold in_estimate
  rw [h]
  rfl

/-! ## Helper lemmas on evaluating the graph -/

theorem flatMap_map_left {α β γ : Type} (l : List α) (f : α → β) (g : β → List γ) :
    (l.map f).flatMap g = l.flatMap (fun a => g (f a)) := by
  induction l with
  | nil => rfl
  | cons h t ih => simp [List.flatMap_cons, ih]

theorem box_points3 (dx dy dz : Dim) :
    box_points [dx, dy, dz] =
      (RDom3.points ⟨dx, dy, dz⟩).map (fun p => [p.1, p.2.1, p.2.2]) := by
  simp [box_points, RDom3.points, List.map_flatMap, flatMap_map_left, List.flatMap_assoc,
    Function.comp_def]

theorem realize_conv (D : Derivative) (I : Inputs) (x y z n : Int) :
    realize D I pipeline_funcs "conv" [x, y, z, n] = f_conv I x y z n := by
  simp [realize, pipeline_funcs, forward_funcs, f_filter_def, f_bias_def, f_conv_def, f_ReLU_def,
    d_filter_def, FuncDef.eval, Expr.eval, IExpr.eval, Expr.domains, Expr.rvars, IExpr.rvars,
    IExpr.vars, Vars.x, Vars.y, Vars.z, Vars.n, rdom_dims, read_image, box_points3,
    List.foldl_map, f_conv, f_filter, f_bias, List.indexOf_cons]

theorem realize_ReLU (D : Derivative) (I : Inputs) (x y z n : Int) :
    realize D I pipeline_funcs "ReLU" [x, y, z, n] = f_ReLU I x y z n := by
  have h := realize_conv D I x y z n
  simp [realize, pipeline_funcs, forward_funcs, f_filter_def, f_bias_def, f_conv_def, f_ReLU_def,
    d_filter_def, FuncDef.eval, Expr.eval, IExpr.eval, Expr.domains, Expr.rvars, IExpr.rvars,
    IExpr.vars, Vars.x, Vars.y, Vars.z, Vars.n, rdom_dims, read_image, box_points3,
    List.foldl_map, f_conv, f_filter, f_bias, List.indexOf_cons, f_ReLU] at h ⊢

theorem realize_d_filter_of_lookup (D : Derivative) (a : Inputs → Tensor4)
    (hl : D.adjoints.lookup "f_filter" = some (.dim4 a)) (I : Inputs) (x y z n : Int) :
    realize D I pipeline_funcs "d_filter" [x, y, z, n] = a I x y z n := by
  simp [realize, pipeline_funcs, forward_funcs, f_filter_def, f_bias_def, f_conv_def, f_ReLU_def,
    d_filter_def, FuncDef.eval, Expr.eval, IExpr.eval, Expr.domains, Expr.rvars, IExpr.rvars,
    IExpr.vars, Vars.x, Vars.y, Vars.z, Vars.n, read_adjoint, hl, List.indexOf_cons]

theorem realize_d_filter (g0 : ℚ) (I : Inputs) (x y z n : Int) :
    realize (propagate_adjoints g0 forward_funcs loss_expr) I pipeline_funcs "d_filter"
      [x, y, z, n] = d_filter g0 I x y z n := by
  rw [realize_d_filter_of_lookup _ (d_f_filter g0) (by rfl), d_filter_eq]

/-! ## Helper lemmas on the derivative of the loss -/

theorem hasDerivAt_sq_max0_off_kink (g0 c t : ℚ) (hc : c ≠ 0) :
    HasDerivAt (fun v : ℚ => (max 0 v - t) * (max 0 v - t))
      (2 * (max 0 c - t) * max0_slope g0 c) c := by
  rcases lt_or_gt_of_ne hc with hneg | hpos
  · have hs : max0_slope g0 c = 0 := by
      simp [max0_slope, not_lt.2 hneg.le, hc]
    rw [hs, mul_zero]
    have hev : (fun v : ℚ => (max 0 v - t) * (max 0 v - t)) =ᶠ[nhds c]
        fun _ => (0 - t) * (0 - t) := by
      filter_upwards [Iio_mem_nhds hneg] with v hv
      rw [max_eq_left (le_of_lt hv)]
    exact (hasDerivAt_const c _).congr_of_eventuallyEq hev
  · have hs : max0_slope g0 c = 1 := by
      simp [max0_slope, hpos]
    rw [hs, mul_one, max_eq_right hpos.le]
    have hev : (fun v : ℚ => (max 0 v - t) * (max 0 v - t)) =ᶠ[nhds c]
        fun v => (v - t) * (v - t) := by
      filter_upwards [Ioi_mem_nhds hpos] with v hv
      rw [max_eq_right (le_of_lt hv)]
    have hd : HasDerivAt (fun v : ℚ => (v - t) * (v - t)) (2 * (c - t)) c := by
      have h1 : HasDerivAt (fun v : ℚ => v - t) 1 c := (hasDerivAt_id c).sub_const t
      have := h1.mul h1
      simpa [two_mul] using this
    exact hd.congr_of_eventuallyEq hev

theorem hasDerivAt_sq_max0_kink :
    HasDerivAt (fun v : ℚ => max 0 v * max 0 v) 0 0 := by
  rw [hasDerivAt_iff_isLittleO_nhds_zero]
  have hb : (fun h : ℚ => max 0 (0 + h) * max 0 (0 + h) - max 0 0 * max 0 0 - h • (0 : ℚ))
      =O[nhds 0] fun h : ℚ => h ^ 2 := by
    refine Asymptotics.IsBigO.of_bound 1 (Filter.Eventually.of_forall fun h => ?_)
    simp only [zero_add, max_self, mul_zero, sub_zero, smul_zero, one_mul, norm_mul, norm_pow]
    have h1 : ‖max 0 h‖ ≤ ‖h‖ := by
      rcases le_total h 0 with hh | hh
      · rw [max_eq_left hh]
        simp
      · rw [max_eq_right hh]
    have h0 : 0 ≤ ‖max 0 h‖ := norm_nonneg _
    nlinarith [norm_nonneg h]
  exact hb.trans_isLittleO (Asymptotics.isLittleO_pow_id (by norm_num))

theorem hasDerivAt_sq_max0 (g0 c t : ℚ) (h : c ≠ 0 ∨ t = 0) :
    HasDerivAt (fun v : ℚ => (max 0 v - t) * (max 0 v - t))
      (2 * (max 0 c - t) * max0_slope g0 c) c := by
  by_cases hc : c = 0
  · have ht : t = 0 := h.resolve_left (not_not.2 hc)
    subst hc
    subst ht
    simpa using hasDerivAt_sq_max0_kink
  · exact hasDerivAt_sq_max0_off_kink g0 c t hc
theorem total_loss_eq_loss_of_conv (I : Inputs) : total_loss I = loss_of_conv I (f_conv I) := by
  rfl

theorem loss_of_conv_eq_sum (I : Inputs) (cv : Tensor4) :
    loss_of_conv I cv =
      ∑ w ∈ Finset.Ico I.compare.dim3.min (I.compare.dim3.min + I.compare.dim3.extent),
        ∑ z ∈ Finset.Ico I.compare.dim2.min (I.compare.dim2.min + I.compare.dim2.extent),
          ∑ y ∈ Finset.Ico I.compare.dim1.min (I.compare.dim1.min + I.compare.dim1.extent),
            ∑ x ∈ Finset.Ico I.compare.dim0.min (I.compare.dim0.min + I.compare.dim0.extent),
              (max 0 (cv x y z w) - I.compare.data x y z w) *
                (max 0 (cv x y z w) - I.compare.data x y z w) := by
  unfold loss_of_conv
  rw [foldl_add_eq_sum
    (fun (p : Int × Int × Int × Int) =>
      (max 0 (cv p.1 p.2.1 p.2.2.1 p.2.2.2) - I.compare.data p.1 p.2.1 p.2.2.1 p.2.2.2) *
        (max 0 (cv p.1 p.2.1 p.2.2.1 p.2.2.2) - I.compare.data p.1 p.2.1 p.2.2.1 p.2.2.2)),
    sum_points4, zero_add]
  rfl

theorem hasDerivAt_term (g0 : ℚ) (I : Inputs) (x y z n : Int) (x' y' z' n' : Int)
    (hc : x = x' ∧ y = y' ∧ z = z' ∧ n = n' →
      f_conv I x y z n ≠ 0 ∨ I.compare.data x y z n = 0) :
    HasDerivAt
      (fun t : ℚ =>
        (max 0 (accumulate4 (f_conv I) x y z n t x' y' z' n') - I.compare.data x' y' z' n') *
          (max 0 (accumulate4 (f_conv I) x y z n t x' y' z' n') - I.compare.data x' y' z' n'))
      (if x = x' ∧ y = y' ∧ z = z' ∧ n = n' then
        2 * (f_ReLU I x y z n - I.compare.data x y z n) * max0_slope g0 (f_conv I x y z n)
      else 0) 0 := by
  by_cases h : x = x' ∧ y = y' ∧ z = z' ∧ n = n'
  · have hc := hc h
    obtain ⟨rfl, rfl, rfl, rfl⟩ := h
    simp only [accumulate4, and_self, if_true]
    have h0 := hasDerivAt_sq_max0 g0 (f_conv I x y z n + 0) (I.compare.data x y z n)
      (by simpa using hc)
    have h1 : HasDerivAt (fun t : ℚ => f_conv I x y z n + t) 1 0 :=
      (hasDerivAt_id (0 : ℚ)).const_add _
    have := HasDerivAt.comp (0 : ℚ) h0 h1
    simpa [f_ReLU, Function.comp_def] using this
  · have hne : ¬ (x' = x ∧ y' = y ∧ z' = z ∧ n' = n) := by
      rintro ⟨rfl, rfl, rfl, rfl⟩
      exact h ⟨rfl, rfl, rfl, rfl⟩
    simp only [accumulate4, hne, h, if_false]
    exact hasDerivAt_const _ _

/-- Wherever the loss is differentiable in the value of `conv` at a position (off the kink
of `max(0, .)`, or on it with a zero target, or outside the domain of `compare`),
`conv_adjoint` is that derivative. -/
theorem conv_adjoint_hasDerivAt (g0 : ℚ) (I : Inputs) (x y z n : Int)
    (hc : I.compare.dim0.contains x ∧ I.compare.dim1.contains y ∧ I.compare.dim2.contains z ∧
        I.compare.dim3.contains n →
      f_conv I x y z n ≠ 0 ∨ I.compare.data x y z n = 0) :
    HasDerivAt (fun t : ℚ => loss_of_conv I (accumulate4 (f_conv I) x y z n t))
      (conv_adjoint g0 I x y z n) 0 := by
  have hsum := sum4_indicator
    (Finset.Ico I.compare.dim0.min (I.compare.dim0.min + I.compare.dim0.extent))
    (Finset.Ico I.compare.dim1.min (I.compare.dim1.min + I.compare.dim1.extent))
    (Finset.Ico I.compare.dim2.min (I.compare.dim2.min + I.compare.dim2.extent))
    (Finset.Ico I.compare.dim3.min (I.compare.dim3.min + I.compare.dim3.extent))
    (fun x' y' z' n' =>
      2 * (f_ReLU I x' y' z' n' - I.compare.data x' y' z' n') *
        max0_slope g0 (f_conv I x' y' z' n')) x y z n
  simp only [mem_Ico_iff_contains] at hsum
  have hd : HasDerivAt (fun t : ℚ => loss_of_conv I (accumulate4 (f_conv I) x y z n t))
      (∑ w ∈ Finset.Ico I.compare.dim3.min (I.compare.dim3.min + I.compare.dim3.extent),
        ∑ z' ∈ Finset.Ico I.compare.dim2.min (I.compare.dim2.min + I.compare.dim2.extent),
          ∑ y' ∈ Finset.Ico I.compare.dim1.min (I.compare.dim1.min + I.compare.dim1.extent),
            ∑ x' ∈ Finset.Ico I.compare.dim0.min (I.compare.dim0.min + I.compare.dim0.extent),
              (if x = x' ∧ y = y' ∧ z = z' ∧ n = w then
                2 * (f_ReLU I x y z n - I.compare.data x y z n) *
                  max0_slope g0 (f_conv I x y z n)
              else 0)) 0 := by
    simp only [loss_of_conv_eq_sum]
    refine HasDerivAt.sum fun w hw => HasDerivAt.sum fun z' hz => HasDerivAt.sum fun y' hy =>
      HasDerivAt.sum fun x' hx => ?_
    rw [mem_Ico_iff_contains] at hw hz hy hx
    refine hasDerivAt_term g0 I x y z n x' y' z' w ?_
    rintro ⟨rfl, rfl, rfl, rfl⟩
    exact hc ⟨hx, hy, hz, hw⟩
  have heq : conv_adjoint g0 I x y z n =
      ∑ w ∈ Finset.Ico I.compare.dim3.min (I.compare.dim3.min + I.compare.dim3.extent),
        ∑ z' ∈ Finset.Ico I.compare.dim2.min (I.compare.dim2.min + I.compare.dim2.extent),
          ∑ y' ∈ Finset.Ico I.compare.dim1.min (I.compare.dim1.min + I.compare.dim1.extent),
            ∑ x' ∈ Finset.Ico I.compare.dim0.min (I.compare.dim0.min + I.compare.dim0.extent),
              (if x = x' ∧ y = y' ∧ z = z' ∧ n = w then
                2 * (f_ReLU I x y z n - I.compare.data x y z n) *
                  max0_slope g0 (f_conv I x y z n)
              else 0) := by
    unfold conv_adjoint
    rw [← hsum]
    refine Finset.sum_congr rfl fun w _ => Finset.sum_congr rfl fun z' _ =>
      Finset.sum_congr rfl fun y' _ => Finset.sum_congr rfl fun x' _ => ?_
    split_ifs with h
    · obtain ⟨rfl, rfl, rfl, rfl⟩ := h
      rfl
    · rfl
  rw [heq]
  exact hd

/-! ## The claims -/

/-- C1: for a filter index `(a, b, c)` inside the first three dimensions of `filter` and any
output channel `k`, the `d_filter` output at `(a, b, c, k)` is the sum, over the positions
`(x, y, n)` of the domain of `compare`, of the adjoint of `conv` at `(x, y, k, n)` times
`input(x + a, y + b, c, n)`; and that adjoint is the derivative of the loss with respect to
the value of `conv` at `(x, y, k, n)` wherever the loss is differentiable there. -/
theorem d_filter_eq_sum_adjoint_conv_mul_input (g0 : ℚ) (I : Inputs) (a b c k : Int)
    (ha : I.filter.dim0.contains a) (hb : I.filter.dim1.contains b)
    (hc : I.filter.dim2.contains c) :
    d_filter g0 I a b c k =
      ∑ n ∈ Finset.Ico I.compare.dim3.min (I.compare.dim3.min + I.compare.dim3.extent),
        ∑ y ∈ Finset.Ico I.compare.dim1.min (I.compare.dim1.min + I.compare.dim1.extent),
          ∑ x ∈ Finset.Ico I.compare.dim0.min (I.compare.dim0.min + I.compare.dim0.extent),
            conv_adjoint g0 I x y k n * I.input.data (x + a) (y + b) c n ∧
    total_loss I = loss_of_conv I (f_conv I) ∧
    ∀ x y n : Int,
      (I.compare.dim0.contains x ∧ I.compare.dim1.contains y ∧ I.compare.dim2.contains k ∧
          I.compare.dim3.contains n →
        f_conv I x y k n ≠ 0 ∨ I.compare.data x y k n = 0) →
      HasDerivAt (fun t : ℚ => loss_of_conv I (accumulate4 (f_conv I) x y k n t))
        (conv_adjoint g0 I x y k n) 0 := by
  refine ⟨?_, total_loss_eq_loss_of_conv I, fun x y n h => conv_adjoint_hasDerivAt g0 I x y k n h⟩
  rw [d_filter_eq, d_f_filter_eq, if_pos ⟨ha, hb, hc⟩]

/-- Witness for C1 on `example_inputs`, at filter index `(1, 0, 0)` and channel 1. -/
theorem d_filter_eq_sum_adjoint_conv_mul_input_witness :
    (example_inputs.filter.dim0.contains 1 ∧ example_inputs.filter.dim1.contains 0 ∧
      example_inputs.filter.dim2.contains 0) ∧
    d_filter 0 example_inputs 1 0 0 1 =
      ∑ n ∈ Finset.Ico example_inputs.compare.dim3.min
          (example_inputs.compare.dim3.min + example_inputs.compare.dim3.extent),
        ∑ y ∈ Finset.Ico example_inputs.compare.dim1.min
            (example_inputs.compare.dim1.min + example_inputs.compare.dim1.extent),
          ∑ x ∈ Finset.Ico example_inputs.compare.dim0.min
              (example_inputs.compare.dim0.min + example_inputs.compare.dim0.extent),
            conv_adjoint 0 example_inputs x y 1 n * example_inputs.input.data (x + 1) (y + 0) 0 n :=
  ⟨by decide,
    (d_filter_eq_sum_adjoint_conv_mul_input 0 example_inputs 1 0 0 1
      (by decide) (by decide) (by decide)).1⟩

/-- C2: `conv(x, y, z, n)` is `bias(z)` plus the sum, over the ranges of the first three
dimensions of `filter`, of `filter(rx, ry, rz, z) * input(x + rx, y + ry, rz, n)`. -/
theorem f_conv_eq_bias_add_sum (I : Inputs) (x y z n : Int) :
    f_conv I x y z n =
      I.bias.data z +
        ∑ rz ∈ Finset.Ico I.filter.dim2.min (I.filter.dim2.min + I.filter.dim2.extent),
          ∑ ry ∈ Finset.Ico I.filter.dim1.min (I.filter.dim1.min + I.filter.dim1.extent),
            ∑ rx ∈ Finset.Ico I.filter.dim0.min (I.filter.dim0.min + I.filter.dim0.extent),
              I.filter.data rx ry rz z * I.input.data (x + rx) (y + ry) rz n :=
  f_conv_eq_sum I x y z n

/-- C3 as stated fails: with filter -1 and input 1 the `d_filter` output is 0, while
`2 * f * i^2` is -2. -/
theorem d_filter_unit_counterexample :
    UnitScenario (unit_inputs (-1) 1 0) (-1) 1 ∧
      d_filter 0 (unit_inputs (-1) 1 0) 0 0 0 0 = 0 ∧
      (2 : ℚ) * (-1) * 1 ^ 2 ≠ 0 := by
  have h : UnitScenario (unit_inputs (-1) 1 0) (-1) 1 := by
    simp [UnitScenario, UnitForward, unit_inputs, unit_buffer]
  refine ⟨h, ?_, by norm_num⟩
  rw [d_filter_eq, unit_d_filter 0 _ _ _ h]
  norm_num

/-- C3, amended: in the 1x1 scenario with bias 0 and compare 0 the `d_filter` output is
`2 * f * i^2` when `f * i` is not negative, and 0 when it is negative. -/
theorem d_filter_unit (g0 : ℚ) (I : Inputs) (f i : ℚ) (h : UnitScenario I f i) :
    d_filter g0 I 0 0 0 0 = if 0 ≤ f * i then 2 * f * i ^ 2 else 0 := by
  rw [d_filter_eq, unit_d_filter g0 I f i h]

/-- Witness for C3 with filter 2 and input 3. -/
theorem d_filter_unit_witness :
    UnitScenario (unit_inputs 2 3 0) 2 3 ∧
      d_filter 0 (unit_inputs 2 3 0) 0 0 0 0 = if (0 : ℚ) ≤ 2 * 3 then 2 * 2 * 3 ^ 2 else 0 :=
  ⟨by simp [UnitScenario, UnitForward, unit_inputs, unit_buffer],
    d_filter_unit 0 (unit_inputs 2 3 0) 2 3
      (by simp [UnitScenario, UnitForward, unit_inputs, unit_buffer])⟩

/-- C4 as stated fails: with filter -1 and input 1, `conv` is -1 but `ReLU` is 0. -/
theorem f_ReLU_unit_counterexample :
    UnitForward (unit_inputs (-1) 1 0) (-1) 1 ∧
      f_ReLU (unit_inputs (-1) 1 0) 0 0 0 0 = 0 ∧ ((-1 : ℚ) * 1 ≠ 0) := by
  have h : UnitForward (unit_inputs (-1) 1 0) (-1) 1 := by
    simp [UnitForward, unit_inputs, unit_buffer]
  refine ⟨h, ?_, by norm_num⟩
  rw [f_ReLU, unit_conv_origin _ _ _ h]
  norm_num

/-- C4, amended: in the 1x1 scenario with bias 0, `conv` is `f * i` and `ReLU` is
`max(0, f * i)`; the two agree exactly when `f * i` is not negative. -/
theorem forward_unit (I : Inputs) (f i : ℚ) (h : UnitForward I f i) :
    f_conv I 0 0 0 0 = f * i ∧ f_ReLU I 0 0 0 0 = max 0 (f * i) ∧
      (f_ReLU I 0 0 0 0 = f_conv I 0 0 0 0 ↔ 0 ≤ f * i) := by
  have hc := unit_conv_origin I f i h
  refine ⟨hc, by rw [f_ReLU, hc], ?_⟩
  rw [f_ReLU, hc]
  exact max_eq_right_iff

/-- Witness for C4 with filter 2 and input 3. -/
theorem forward_unit_witness :
    UnitForward (unit_inputs 2 3 0) 2 3 ∧
      (f_conv (unit_inputs 2 3 0) 0 0 0 0 = 2 * 3 ∧
        f_ReLU (unit_inputs 2 3 0) 0 0 0 0 = max 0 (2 * 3) ∧
        (f_ReLU (unit_inputs 2 3 0) 0 0 0 0 = f_conv (unit_inputs 2 3 0) 0 0 0 0 ↔
          (0 : ℚ) ≤ 2 * 3)) :=
  ⟨by simp [UnitForward, unit_inputs, unit_buffer],
    forward_unit (unit_inputs 2 3 0) 2 3 (by simp [UnitForward, unit_inputs, unit_buffer])⟩
/-- C5: the adjoint map of the loss holds an entry for `f` exactly when a dependency path
leads from the loss to `f`; `f_filter` and `ReLU` have entries, and `generate()` succeeds
for both values of `auto_schedule` (neither lookup misses). -/
theorem adjoints_entry_iff_loss_reaches (g0 : ℚ) :
    (∀ f : String,
      ((propagate_adjoints g0 forward_funcs loss_expr).adjoints.lookup f).isSome ↔
        LossReaches forward_funcs loss_expr f) ∧
    ((propagate_adjoints g0 forward_funcs loss_expr).adjoints.lookup f_filter_def.name).isSome ∧
    ((propagate_adjoints g0 forward_funcs loss_expr).adjoints.lookup f_ReLU_def.name).isSome ∧
    (LossReaches forward_funcs loss_expr "ReLU" ∧ LossReaches forward_funcs loss_expr "conv" ∧
      LossReaches forward_funcs loss_expr "f_filter" ∧
      LossReaches forward_funcs loss_expr "f_bias") ∧
    ∀ auto_schedule : Bool, ∃ p, generate g0 auto_schedule = .ok p := by
  refine ⟨fun f => ?_, by rfl, by rfl, ?_, fun b => ⟨_, generate_ok g0 b⟩⟩
  · rw [lookup_isSome_iff, adjoint_names, loss_reaches_iff]
  · simp [loss_reaches_iff]

/-- C6: the `ReLU` output of the generated pipeline is `max(0, conv)` computed from
`input`, `filter` and `bias`; it does not change when only `compare` changes; and every
forward `Func` is still in the graph with the definition it was given. -/
theorem forward_unchanged (g0 : ℚ) (auto_schedule : Bool) :
    ∃ p, generate g0 auto_schedule = .ok p ∧
      (∀ (I : Inputs) (x y z n : Int),
        p.ReLU I x y z n =
          max 0 (I.bias.data z +
            ∑ rz ∈ Finset.Ico I.filter.dim2.min (I.filter.dim2.min + I.filter.dim2.extent),
              ∑ ry ∈ Finset.Ico I.filter.dim1.min (I.filter.dim1.min + I.filter.dim1.extent),
                ∑ rx ∈ Finset.Ico I.filter.dim0.min (I.filter.dim0.min + I.filter.dim0.extent),
                  I.filter.data rx ry rz z * I.input.data (x + rx) (y + ry) rz n)) ∧
      (∀ (I : Inputs) (c : Buffer4), p.ReLU { I with compare := c } = p.ReLU I) ∧
      (∀ d ∈ forward_funcs, p.funcs.find? (fun e => e.name = d.name) = some d) := by
  refine ⟨_, generate_ok g0 auto_schedule, ?_, ?_, ?_⟩
  · intro I x y z n
    show f_ReLU I x y z n = _
    rw [f_ReLU, f_conv_eq_sum]
  · intro I c
    rfl
  · show ∀ d ∈ forward_funcs, pipeline_funcs.find? (fun e => e.name = d.name) = some d
    decide

/-- C7: for both values of `auto_schedule`, `generate()` succeeds and builds the same
`Func`s, the same loss and the same `ReLU` and `d_filter` outputs; only the schedule
differs. -/
theorem auto_schedule_selects_schedule_only (g0 : ℚ) :
    ∃ p q, generate g0 true = .ok p ∧ generate g0 false = .ok q ∧
      p.funcs = q.funcs ∧ p.loss = q.loss ∧ p.ReLU = q.ReLU ∧ p.d_filter = q.d_filter ∧
      p.schedule = .automatic estimates ∧ q.schedule = .manual manual_schedule :=
  ⟨_, _, generate_ok g0 true, generate_ok g0 false, rfl, rfl, rfl, rfl, rfl, rfl⟩

/-- C8: the graph of `generate()` passes the build-time checks: every indexing site has as
many indices as the indexed buffer or `Func` has dimensions (4, except 1 for `bias` and
`f_bias`), the left-hand side of the `conv` update is `(x, y, z, n)`, and reduction
variables occur only on right-hand sides, those of `r` (3 axes) in the `conv` update and
those of `r_target` (4 axes) in the loss. -/
theorem generate_builds_without_error :
    build_ok pipeline_funcs loss_expr = true ∧
    (["input", "filter", "compare"].map (fun b => dims_of pipeline_funcs (.buffer b)) =
        [some 4, some 4, some 4] ∧
      ["ReLU", "conv", "f_filter", "d_filter"].map (fun f => dims_of pipeline_funcs (.func f)) =
        [some 4, some 4, some 4, some 4] ∧
      dims_of pipeline_funcs (.adjointOf "f_filter") = some 4 ∧
      dims_of pipeline_funcs (.buffer "bias") = some 1 ∧
      dims_of pipeline_funcs (.func "f_bias") = some 1) ∧
    (f_conv_def.updates.map (fun u => u.lhs) = [[Vars.x, Vars.y, Vars.z, Vars.n]] ∧
      f_conv_def.init.lhs = [Vars.x, Vars.y, Vars.z, Vars.n]) ∧
    (pipeline_funcs.all (fun d => (d.init :: d.updates).all
        (fun u => u.lhs.all (fun a => a.rvars.isEmpty))) = true ∧
      pipeline_funcs.all (fun d => d.init.rhs.rvars.isEmpty) = true ∧
      f_conv_def.updates.map (fun u => u.rhs.domains) = [["r"]] ∧
      loss_expr.domains = ["r_target"] ∧
      rdom_axes = [("r", 3), ("r_target", 4)]) := by
  decide
/-- C9: the loss, the sum over the domain of `compare` of `(ReLU - compare)^2`, is never
negative; and when `ReLU` equals `compare` at every position of that domain, the loss is
0 and the `d_filter` output is 0 at every index. -/
theorem loss_nonneg_and_zero_at_match (g0 : ℚ) (I : Inputs) :
    0 ≤ total_loss I ∧
    (total_loss I =
      ∑ w ∈ Finset.Ico I.compare.dim3.min (I.compare.dim3.min + I.compare.dim3.extent),
        ∑ z ∈ Finset.Ico I.compare.dim2.min (I.compare.dim2.min + I.compare.dim2.extent),
          ∑ y ∈ Finset.Ico I.compare.dim1.min (I.compare.dim1.min + I.compare.dim1.extent),
            ∑ x ∈ Finset.Ico I.compare.dim0.min (I.compare.dim0.min + I.compare.dim0.extent),
              (f_ReLU I x y z w - I.compare.data x y z w) ^ 2) ∧
    ((∀ x y z n : Int, I.compare.dim0.contains x → I.compare.dim1.contains y →
        I.compare.dim2.contains z → I.compare.dim3.contains n →
        f_ReLU I x y z n = I.compare.data x y z n) →
      total_loss I = 0 ∧ ∀ a b c k : Int, d_filter g0 I a b c k = 0) := by
  refine ⟨total_loss_nonneg I, total_loss_eq_sum I, fun h => ⟨total_loss_zero I h, ?_⟩⟩
  intro a b c k
  rw [d_filter_eq, d_f_filter_zero g0 I h]

/-- Witness for C9: in the 1x1 scenario with filter 2, input 3 and compare 6, `ReLU` equals
`compare` on the domain, so the loss and the `d_filter` output are 0. -/
theorem loss_nonneg_and_zero_at_match_witness :
    (∀ x y z n : Int, (unit_inputs 2 3 6).compare.dim0.contains x →
        (unit_inputs 2 3 6).compare.dim1.contains y →
        (unit_inputs 2 3 6).compare.dim2.contains z →
        (unit_inputs 2 3 6).compare.dim3.contains n →
        f_ReLU (unit_inputs 2 3 6) x y z n = (unit_inputs 2 3 6).compare.data x y z n) ∧
    total_loss (unit_inputs 2 3 6) = 0 ∧
    ∀ a b c k : Int, d_filter 0 (unit_inputs 2 3 6) a b c k = 0 := by
  have h : ∀ x y z n : Int, (unit_inputs 2 3 6).compare.dim0.contains x →
      (unit_inputs 2 3 6).compare.dim1.contains y →
      (unit_inputs 2 3 6).compare.dim2.contains z →
      (unit_inputs 2 3 6).compare.dim3.contains n →
      f_ReLU (unit_inputs 2 3 6) x y z n = (unit_inputs 2 3 6).compare.data x y z n := by
    intro x y z n _ _ _ _
    rw [f_ReLU, f_conv_eq_sum]
    simp [unit_inputs, unit_buffer, Ico_unit]
    norm_num
  exact ⟨h, (loss_nonneg_and_zero_at_match 0 (unit_inputs 2 3 6)).2.2 h⟩


/-- C10: under the estimates of the auto-schedule branch, for every output index
`(x, y, z, n)` in the `ReLU` estimate and every reduction point `(rx, ry, rz)` in the
estimate of the first three dimensions of `filter`, the reads `input(x + rx, y + ry, rz, n)`,
`filter(rx, ry, rz, z)` and `bias(z)` lie in the estimates of `input`, `filter` and `bias`;
the `ReLU` estimate equals the `compare` estimate, and the `d_filter` estimate the `filter`
estimate. -/
theorem reads_within_estimates (x y z n rx ry rz : Int)
    (hx : in_estimate pipeline_funcs estimates "ReLU" 0 x)
    (hy : in_estimate pipeline_funcs estimates "ReLU" 1 y)
    (hz : in_estimate pipeline_funcs estimates "ReLU" 2 z)
    (hn : in_estimate pipeline_funcs estimates "ReLU" 3 n)
    (hrx : in_estimate pipeline_funcs estimates "filter" 0 rx)
    (hry : in_estimate pipeline_funcs estimates "filter" 1 ry)
    (hrz : in_estimate pipeline_funcs estimates "filter" 2 rz) :
    (in_estimate pipeline_funcs estimates "input" 0 (x + rx) ∧
      in_estimate pipeline_funcs estimates "input" 1 (y + ry) ∧
      in_estimate pipeline_funcs estimates "input" 2 rz ∧
      in_estimate pipeline_funcs estimates "input" 3 n) ∧
    (in_estimate pipeline_funcs estimates "filter" 0 rx ∧
      in_estimate pipeline_funcs estimates "filter" 1 ry ∧
      in_estimate pipeline_funcs estimates "filter" 2 rz ∧
      in_estimate pipeline_funcs estimates "filter" 3 z) ∧
    in_estimate pipeline_funcs estimates "bias" 0 z ∧
    (estimate_box pipeline_funcs estimates "ReLU" 4 =
        [some ⟨0, 64⟩, some ⟨0, 64⟩, some ⟨0, 32⟩, some ⟨0, 4⟩] ∧
      estimate_box pipeline_funcs estimates "filter" 4 =
        [some ⟨0, 3⟩, some ⟨0, 3⟩, some ⟨0, 32⟩, some ⟨0, 32⟩] ∧
      estimate_box pipeline_funcs estimates "input" 4 =
        [some ⟨0, 67⟩, some ⟨0, 67⟩, some ⟨0, 32⟩, some ⟨0, 4⟩] ∧
      estimate_box pipeline_funcs estimates "bias" 1 = [some ⟨0, 32⟩]) ∧
    estimate_box pipeline_funcs estimates "ReLU" 4 =
      estimate_box pipeline_funcs estimates "compare" 4 ∧
    estimate_box pipeline_funcs estimates "d_filter" 4 =
      estimate_box pipeline_funcs estimates "filter" 4 := by
  rw [in_estimate_iff "ReLU" _ ⟨0, 64⟩ (by decide)] at hx hy
  rw [in_estimate_iff "ReLU" 2 ⟨0, 32⟩ (by decide)] at hz
  rw [in_estimate_iff "ReLU" 3 ⟨0, 4⟩ (by decide)] at hn
  rw [in_estimate_iff "filter" _ ⟨0, 3⟩ (by decide)] at hrx hry
  rw [in_estimate_iff "filter" 2 ⟨0, 32⟩ (by decide)] at hrz
  rw [in_estimate_iff "input" 0 ⟨0, 67⟩ (by decide), in_estimate_iff "input" 1 ⟨0, 67⟩ (by decide),
    in_estimate_iff "input" 2 ⟨0, 32⟩ (by decide), in_estimate_iff "input" 3 ⟨0, 4⟩ (by decide),
    in_estimate_iff "filter" 0 ⟨0, 3⟩ (by decide), in_estimate_iff "filter" 1 ⟨0, 3⟩ (by decide),
    in_estimate_iff "filter" 2 ⟨0, 32⟩ (by decide), in_estimate_iff "filter" 3 ⟨0, 32⟩ (by decide),
    in_estimate_iff "bias" 0 ⟨0, 32⟩ (by decide)]
  obtain ⟨e1, e2, e3, e4, e5, e6⟩ := estimate_boxes
  refine ⟨?_, ?_, ?_, ⟨e5, e2, e1, e3⟩, by rw [e5, e4], by rw [e6, e2]⟩
  · simp only at *
    omega
  · simp only at *
    omega
  · simp only at *
    omega

/-- Witness for C10 at the far corner of the estimates: output index `(63, 63, 31, 3)` and
reduction point `(2, 2, 31)`. -/
theorem reads_within_estimates_witness :
    (in_estimate pipeline_funcs estimates "ReLU" 0 63 ∧
      in_estimate pipeline_funcs estimates "ReLU" 1 63 ∧
      in_estimate pipeline_funcs estimates "ReLU" 2 31 ∧
      in_estimate pipeline_funcs estimates "ReLU" 3 3 ∧
      in_estimate pipeline_funcs estimates "filter" 0 2 ∧
      in_estimate pipeline_funcs estimates "filter" 1 2 ∧
      in_estimate pipeline_funcs estimates "filter" 2 31) ∧
    (in_estimate pipeline_funcs estimates "input" 0 (63 + 2) ∧
      in_estimate pipeline_funcs estimates "input" 1 (63 + 2) ∧
      in_estimate pipeline_funcs estimates "input" 2 31 ∧
      in_estimate pipeline_funcs estimates "input" 3 3) ∧
    (in_estimate pipeline_funcs estimates "filter" 0 2 ∧
      in_estimate pipeline_funcs estimates "filter" 1 2 ∧
      in_estimate pipeline_funcs estimates "filter" 2 31 ∧
      in_estimate pipeline_funcs estimates "filter" 3 31) ∧
    in_estimate pipeline_funcs estimates "bias" 0 31 :=
  have h := reads_within_estimates 63 63 31 3 2 2 31
    (by decide) (by decide) (by decide) (by decide) (by decide) (by decide) (by decide)
  ⟨by decide, h.1, h.2.1, h.2.2.1⟩

/-! ## Further properties -/

/-- The graph that `generate()` builds, evaluated in definition order, computes the values
the pipeline's outputs denote: `conv`, `ReLU` and `d_filter` of the graph are `f_conv`,
the `ReLU` output and the `d_filter` output. -/
theorem graph_denotes_outputs (g0 : ℚ) (auto_schedule : Bool) :
    ∃ p, generate g0 auto_schedule = .ok p ∧
      ∀ (I : Inputs) (x y z n : Int),
        realize (propagate_adjoints g0 forward_funcs loss_expr) I p.funcs "conv" [x, y, z, n] =
            f_conv I x y z n ∧
          realize (propagate_adjoints g0 forward_funcs loss_expr) I p.funcs "ReLU" [x, y, z, n] =
            p.ReLU I x y z n ∧
          realize (propagate_adjoints g0 forward_funcs loss_expr) I p.funcs "d_filter"
            [x, y, z, n] = p.d_filter I x y z n :=
  ⟨_, generate_ok g0 auto_schedule, fun I x y z n =>
    ⟨realize_conv _ I x y z n, realize_ReLU _ I x y z n,
      (realize_d_filter g0 I x y z n).trans (congrFun (congrFun (congrFun (congrFun
        (d_filter_eq g0 I) x) y) z) n)⟩⟩

/-- On any graph listed in definition order, the walk from the loss marks a name exactly
when a dependency path leads from the roots to it. -/
theorem adjoint_keys_mark_reachable (g : List FuncDef) (hg : DefinitionOrdered g)
    (roots : List String) (f : String) :
    f ∈ adjoint_keys g roots ↔ Reaches g roots f :=
  mem_adjoint_keys_iff g hg roots f

/-- Witness: on the forward graph of the generator, `f_bias` is marked from the root
`ReLU`. -/
theorem adjoint_keys_mark_reachable_witness :
    DefinitionOrdered forward_funcs ∧
      ("f_bias" ∈ adjoint_keys forward_funcs ["ReLU"] ↔ Reaches forward_funcs ["ReLU"] "f_bias") :=
  ⟨by decide, adjoint_keys_mark_reachable forward_funcs (by decide) ["ReLU"] "f_bias"⟩

end DiffConvLayer
